import Mathlib

/-!
# Static site generator `ssg.go`: embedding and verified properties

The program reads a manifest, renders every article of every section, collects
per-section metadata and feed items, renders the index and writes the Atom feed.

Embedding conventions.

* Go strings are Lean `String`s; path algorithms work on their character lists.
  The host is a Unix host: `filepath.Separator` is `/`, so `filepath.ToSlash` is the
  identity and `filepath.Join` cleans with `/`.
* The operating system and the libraries the program calls (`os`, `present`,
  `html/template`, `net/url`, `gorilla/feeds`, `encoding/json`) are a record `Sys` of
  functions of the current world.  The world is the process working directory plus a
  file-system state of an arbitrary type `F`.  Reads never change the world, a failed
  `Chdir` never changes it, a successful `Chdir` changes the working directory only, and
  writes change the file-system state only.
* Every function returns, next to its Go results and the new world, the list of the
  external calls and log lines it issued, in order.
* `defer` is embedded as the deferred function applied to the results of the body.
-/

namespace SSG

/-! ## Go errors -/

/-- Go `error` values: a message, and for errors built with the `%w` verb the wrapped error. -/
inductive GoError where
  | leaf (msg : String)
  | wrap (msg : String) (inner : GoError)
deriving DecidableEq, Repr

namespace GoError

/-- The `Error()` method. -/
def Error : GoError → String
  | leaf msg => msg
  | wrap msg _ => msg

/-- The `Unwrap()` method. -/
def Unwrap : GoError → Option GoError
  | leaf _ => none
  | wrap _ inner => some inner

/-- The chain walked by `errors.Is`: the error itself, then what it unwraps to, and so on. -/
def chain : GoError → List GoError
  | leaf msg => [leaf msg]
  | wrap msg inner => wrap msg inner :: chain inner

end GoError

/-- `fmt.Errorf(pre + "%w", err)` for a format whose only verb after the text `pre`
(already formatted) is a final `%w`. -/
def Errorf (pre : String) (err : GoError) : GoError :=
  GoError.wrap (pre ++ err.Error) err

/-- `fmt.Errorf("%w" + mid + "%v", err, nerr)`: wraps `err`, prints `nerr`. -/
def ErrorfAnd (err : GoError) (mid : String) (nerr : GoError) : GoError :=
  GoError.wrap (err.Error ++ mid ++ nerr.Error) err

/-! ## `path/filepath` on a Unix host -/

namespace Filepath

/-- `os.IsPathSeparator`. -/
def IsPathSeparator (c : Char) : Bool := c == '/'

/-- `filepath.IsAbs`: the path starts with a separator. -/
def IsAbs (path : String) : Bool := path.toList.head? == some '/'

/-- `filepath.ToSlash`: the separator already is `/`, the path is returned as is. -/
def ToSlash (path : String) : String := path

/-- Inner loop of the `..` case of `Clean`. The buffer is kept reversed (last written byte
first); `last` is the byte at index `out.w`, the one dropped last. Bytes are dropped while
`out.w > dotdot` and that byte is not a separator. -/
def backtrack (dotdot : Nat) : List Char → Char → List Char
  | [], _ => []
  | c :: rest, last =>
    if (c :: rest).length > dotdot ∧ ¬ IsPathSeparator last then backtrack dotdot rest c
    else c :: rest

/-- The `..` case when `out.w > dotdot`: `out.w--`, then the inner loop. -/
def dropElem (dotdot : Nat) : List Char → List Char
  | [] => []
  | o :: os => backtrack dotdot os o

/-- The loop `for r < n` of `filepath.Clean`. The second list is `path[r:]`, `out` the
written buffer reversed, so that `out.length` is `out.w`. Every iteration reads at least
one byte, so `fuel = n` iterations always suffice. -/
def cleanLoop (rooted : Bool) : Nat → List Char → List Char → Nat → List Char
  | 0, _, out, _ => out
  | _, [], out, _ => out
  | fuel + 1, c :: tl, out, dotdot =>
    if IsPathSeparator c then
      -- empty path element
      cleanLoop rooted fuel tl out dotdot
    else if c = '.' ∧ (tl = [] ∨ tl.head?.map IsPathSeparator = some true) then
      -- . element
      cleanLoop rooted fuel tl out dotdot
    else if c = '.' ∧ tl.head? = some '.' ∧
        (tl.tail = [] ∨ tl.tail.head?.map IsPathSeparator = some true) then
      -- .. element: remove to last separator
      if out.length > dotdot then
        cleanLoop rooted fuel tl.tail (dropElem dotdot out) dotdot
      else if ¬ rooted then
        let out1 := if out.length > 0 then '/' :: out else out
        cleanLoop rooted fuel tl.tail ('.' :: '.' :: out1) (out1.length + 2)
      else
        cleanLoop rooted fuel tl.tail out dotdot
    else
      -- real path element: add slash if needed, copy element
      let out1 :=
        if (rooted ∧ out.length ≠ 1) ∨ (¬ rooted ∧ out.length ≠ 0) then '/' :: out else out
      let elem := (c :: tl).takeWhile (fun x => ! IsPathSeparator x)
      let rest := (c :: tl).dropWhile (fun x => ! IsPathSeparator x)
      cleanLoop rooted fuel rest (elem.reverse ++ out1) dotdot

/-- `filepath.Clean`. -/
def Clean (path : String) : String :=
  if path = "" then "." else
  let p := path.toList
  let rooted := p.head?.map IsPathSeparator = some true
  let out :=
    if rooted then cleanLoop true p.length p.tail ['/'] 1
    else cleanLoop false p.length p [] 0
  -- Turn empty string into "."
  if out = [] then "." else String.mk out.reverse

/-- `filepath.Join`: leading empty elements are ignored, the rest is joined with the
separator and cleaned; no non-empty element gives the empty string. -/
def Join (elem : List String) : String :=
  match elem.dropWhile (fun e => e == "") with
  | [] => ""
  | es => Clean (String.intercalate "/" es)

end Filepath

/-! ## Data model (`ssg.go` lines 41-65, and the library types it fills) -/

/-- Go `time.Time`, as a count of nanoseconds. -/
structure Time where
  ns : Int
deriving DecidableEq, Repr

/-- The zero value `time.Time{}`. -/
def Time.zero : Time := ⟨0⟩

/-- Type `section` of the source. -/
structure ManifestSection where
  Section : String
  Articles : List String
deriving DecidableEq, Repr

structure manifest where
  Title : String
  Author : String
  Email : String
  Href : String
  Description : String
  Sections : List ManifestSection
deriving DecidableEq, Repr

structure article where
  URL : String
  Title : String
  Summary : String
  Time : Time
deriving DecidableEq, Repr

structure metadata where
  Section : String
  Articles : List article
deriving DecidableEq, Repr

/-- The fields of `present.Doc` that the program reads; `Body` stands for the rest. -/
structure Doc where
  Title : String
  Summary : String
  Time : Time
  Body : String
deriving DecidableEq, Repr

/-- A parsed `*template.Template`: the names of its templates. -/
structure Template where
  names : List String
deriving DecidableEq, Repr

/-- Type `feeds.Link`, field `Href`. -/
structure Link where
  Href : String
deriving DecidableEq, Repr

/-- Type `feeds.Author`. -/
structure Author where
  Name : String
  Email : String
deriving DecidableEq, Repr

/-- Type `feeds.Item`, the fields the program sets. -/
structure Item where
  Title : String
  Link : Link
  Author : Author
  Description : String
  Id : String
  Created : Time
deriving DecidableEq, Repr

/-- Type `feeds.Feed`, the fields the program sets. -/
structure Feed where
  Title : String
  Link : Link
  Description : String
  Author : Author
  Created : Time
  Items : List Item
deriving DecidableEq, Repr

/-! ## The world and the external calls -/

/-- State outside the program: the process working directory and the file system. -/
structure World (F : Type) where
  cwd : String
  fs : F
deriving DecidableEq, Repr

/-- One external call or log line, as issued. -/
inductive Event where
  | Println (msg : String)
  | Fatalln (msg : String)
  | Getwd
  | Chdir (dir : String)
  | Open (name : String)
  | Parse (name : String)
  | Create (name : String)
  | Render (name : String)
  | ExecuteTemplate (file : String) (name : String) (data : List metadata)
  | Close (name : String)
  | JoinPath (base : String) (elem : String)
  | ToAtom (feed : Feed)
  | WriteFile (name : String) (data : String)
  | ReadFile (name : String)
  | Unmarshal (data : String)
  | ParseFS
  | MkdirAll (path : String)
deriving DecidableEq, Repr

/-- The behaviour of the operating system and of the libraries. Calls that only read take
the world and return a result; calls that write also return the new file-system state;
`JoinPath`, `ToAtom`, `Unmarshal` and `ParseFS` are pure. -/
structure Sys (F : Type) where
  /-- Error of `os.Getwd()`, if it fails. -/
  getwdErr : World F → Option GoError
  /-- Error of `os.Chdir(dir)`, if it fails. -/
  chdirErr : World F → String → Option GoError
  /-- Error of `os.Open(name)`, if it fails. -/
  openErr : World F → String → Option GoError
  /-- Result of `present.Parse(file, name, 0)` on the open file `file`. -/
  presentParse : World F → String → String → Except GoError Doc
  /-- Call `os.Create(name)`. -/
  create : World F → String → Option GoError × F
  /-- Call `doc.Render(f, tmpl)` on the file created as `name`. -/
  docRender : World F → String → Doc → Template → Option GoError × F
  /-- Call `tmpl.ExecuteTemplate(f, name, data)` on the file created as `file`. -/
  executeTemplate : World F → String → String → List metadata → Template → Option GoError × F
  /-- Call `f.Close()` on the file created as `name`. -/
  close : World F → String → Option GoError × F
  /-- Call `url.JoinPath(base, elem)`. -/
  joinPath : String → String → Except GoError String
  /-- Call `feed.ToAtom()`. -/
  toAtom : Feed → Except GoError String
  /-- Call `os.WriteFile(name, data, 0644)`. -/
  writeFile : World F → String → String → Option GoError × F
  /-- Call `os.ReadFile(name)`. -/
  readFile : World F → String → Except GoError String
  /-- Call `json.Unmarshal(data, &manifest)`. -/
  unmarshal : String → Except GoError manifest
  /-- Call `present.Template().ParseFS(static, "templates/*.html")`. -/
  parseFS : Except GoError Template
  /-- Call `os.MkdirAll(path, 0644)`. -/
  mkdirAll : World F → String → Option GoError × F
  /-- Call `time.Now()`. -/
  now : World F → Time

variable {F : Type}

/-- `os.Getwd`: the working directory, or an error. -/
def osGetwd (sys : Sys F) (w : World F) : Except GoError String :=
  match sys.getwdErr w with
  | some e => .error e
  | none => .ok w.cwd

/-- `os.Chdir`: on failure nothing changes; on success the working directory becomes
`dir` when `dir` is absolute, and `dir` below the old working directory otherwise. -/
def osChdir (sys : Sys F) (dir : String) (w : World F) : Option GoError × World F :=
  match sys.chdirErr w dir with
  | some e => (some e, w)
  | none => (none, { w with cwd := if Filepath.IsAbs dir then dir else w.cwd ++ "/" ++ dir })

/-! ## `parse`, `render`, `renderIndex` (lines 189-240) -/

/-- Function `parse` (lines 189-200). It only reads, so the world is not returned. The
deferred `art.Close()` has its error dropped by the source. -/
def parse (sys : Sys F) (inp : String) (w : World F) : Except GoError Doc × List Event :=
  match sys.openErr w (inp ++ ".article") with
  | some err =>
    (.error (Errorf ("couldn't open " ++ inp ++ "/" ++ inp ++ ".article: ") err),
      [Event.Open (inp ++ ".article")])
  | none =>
    match sys.presentParse w (inp ++ ".article") inp with
    | .error err =>
      (.error (Errorf ("couldn't parse " ++ inp ++ ": ") err),
        [Event.Open (inp ++ ".article"), Event.Parse inp, Event.Close (inp ++ ".article")])
    | .ok doc =>
      (.ok doc,
        [Event.Open (inp ++ ".article"), Event.Parse inp, Event.Close (inp ++ ".article")])

/-- The deferred function of `render` and of `renderIndex` (lines 208-217 and 228-237, the
same text): `err` is the pending result, `nerr` the result of `f.Close()`. -/
def deferClose (out : String) (err nerr : Option GoError) : Option GoError :=
  match nerr with
  | none => err
  | some nerr =>
    match err with
    | none => some (Errorf ("couldn't close " ++ out ++ ": ") nerr)
    | some err => some (ErrorfAnd err ("; and couldn't close " ++ out ++ ": ") nerr)

/-- Function `render` (lines 202-220). -/
def render (sys : Sys F) (out : String) (doc : Doc) (tmpl : Template) (w : World F) :
    Option GoError × World F × List Event :=
  match sys.create w out with
  | (some err, fs1) =>
    (some (Errorf ("couldn't create " ++ out ++ ": ") err), { w with fs := fs1 },
      [Event.Create out])
  | (none, fs1) =>
    let w1 : World F := { w with fs := fs1 }
    let r := sys.docRender w1 out doc tmpl
    let w2 : World F := { w1 with fs := r.2 }
    let c := sys.close w2 out
    (deferClose out r.1 c.1, { w2 with fs := c.2 },
      [Event.Create out, Event.Render out, Event.Close out])

/-- Function `renderIndex` (lines 222-240). -/
def renderIndex (sys : Sys F) (out : String) (sections : List metadata) (tmpl : Template)
    (w : World F) : Option GoError × World F × List Event :=
  match sys.create w out with
  | (some err, fs1) =>
    (some (Errorf ("couldn't create " ++ out ++ ": ") err), { w with fs := fs1 },
      [Event.Create out])
  | (none, fs1) =>
    let w1 : World F := { w with fs := fs1 }
    let r := sys.executeTemplate w1 out "index" sections tmpl
    let w2 : World F := { w1 with fs := r.2 }
    let c := sys.close w2 out
    (deferClose out r.1 c.1, { w2 with fs := c.2 },
      [Event.Create out, Event.ExecuteTemplate out "index" sections, Event.Close out])

/-! ## `doArticle` (lines 162-187) -/

/-- The four results of `doArticle`. -/
structure ArticleResult where
  doc : Option Doc
  url : String
  when : Time
  err : Option GoError
deriving DecidableEq, Repr

/-- The deferred function of `doArticle` (lines 171-180): `err` is the pending result,
`nerr` the result of `os.Chdir(cwd)`. -/
def deferChdir (cwd : String) (err nerr : Option GoError) : Option GoError :=
  match nerr with
  | none => err
  | some nerr =>
    match err with
    | none => some (Errorf ("couldn't cd back to " ++ cwd ++ ": ") nerr)
    | some err => some (ErrorfAnd err ("; and couldn't cd back to " ++ cwd ++ ": ") nerr)

/-- Lines 181-186 of `doArticle`: what runs between the change of directory and the
deferred restore. -/
def doArticleBody (sys : Sys F) (out inp : String) (tmpl : Template) (w : World F) :
    ArticleResult × World F × List Event :=
  match parse sys inp w with
  | (.error err, ev) => (⟨none, "", Time.zero, some err⟩, w, ev)
  | (.ok doc, ev) =>
    let url := Filepath.Join ["articles", inp ++ ".html"]
    let r := render sys (Filepath.Join [out, url]) doc tmpl w
    (⟨some doc, Filepath.ToSlash url, doc.Time, r.1⟩, r.2.1, ev ++ r.2.2)

/-- Function `doArticle` (lines 162-187). -/
def doArticle (sys : Sys F) (out inp : String) (tmpl : Template) (w : World F) :
    ArticleResult × World F × List Event :=
  match osGetwd sys w with
  | .error err =>
    (⟨none, "", Time.zero, some (Errorf "couldn't get cwd: " err)⟩, w, [Event.Getwd])
  | .ok cwd =>
    match osChdir sys inp w with
    | (some err, w1) =>
      (⟨none, "", Time.zero, some (Errorf ("couldn't cd to " ++ inp ++ ": ") err)⟩, w1,
        [Event.Getwd, Event.Chdir inp])
    | (none, w1) =>
      let b := doArticleBody sys out inp tmpl w1
      let c := osChdir sys cwd b.2.1
      ({ b.1 with err := deferChdir cwd b.1.err c.1 }, c.2,
        [Event.Getwd, Event.Chdir inp] ++ b.2.2 ++ [Event.Chdir cwd])

/-! ## `main` (lines 74-160) -/

/-- The local variables the article loop updates, with the world and the events so far. -/
structure LoopState (F : Type) where
  Articles : List article
  Items : List Item
  world : World F
  events : List Event

/-- The inner loop `for _, art := range sec.Articles` (lines 121-143), started with the
articles of the section record `m.Articles` and the feed items accumulated so far. -/
def articleLoop (sys : Sys F) (mf : manifest) (outdir : String) (tmpl : Template)
    (sec : String) : List String → List article → List Item → World F → LoopState F
  | [], arts, items, w => ⟨arts, items, w, []⟩
  | art :: rest, arts, items, w =>
    let ev0 := [Event.Println (sec ++ " " ++ art)]
    let r := doArticle sys outdir art tmpl w
    match r.1.err, r.1.doc with
    | some err, _ =>
      let s := articleLoop sys mf outdir tmpl sec rest arts items r.2.1
      { s with events := ev0 ++ r.2.2 ++ [Event.Println err.Error] ++ s.events }
    | none, none =>
      -- not reached: `doArticle` returns a document whenever it returns no error
      let s := articleLoop sys mf outdir tmpl sec rest arts items r.2.1
      { s with events := ev0 ++ r.2.2 ++ s.events }
    | none, some doc =>
      let arts1 := arts ++ [⟨r.1.url, doc.Title, doc.Summary, doc.Time⟩]
      match sys.joinPath mf.Href r.1.url with
      | .error err =>
        let s := articleLoop sys mf outdir tmpl sec rest arts1 items r.2.1
        { s with events := ev0 ++ r.2.2 ++ [Event.JoinPath mf.Href r.1.url,
            Event.Println err.Error] ++ s.events }
      | .ok l =>
        let fi : Item :=
          { Title := doc.Title, Link := ⟨l⟩, Author := ⟨mf.Author, mf.Email⟩,
            Description := doc.Summary, Id := l, Created := r.1.when }
        let s := articleLoop sys mf outdir tmpl sec rest arts1 (items ++ [fi]) r.2.1
        { s with events := ev0 ++ r.2.2 ++ [Event.JoinPath mf.Href r.1.url] ++ s.events }

/-- The local variables the section loop updates, with the world and the events so far. -/
structure SectionsState (F : Type) where
  meta : List metadata
  Items : List Item
  world : World F
  events : List Event

/-- The outer loop `for _, sec := range manifest.Sections` (lines 119-145). -/
def sectionLoop (sys : Sys F) (mf : manifest) (outdir : String) (tmpl : Template) :
    List ManifestSection → List metadata → List Item → World F → SectionsState F
  | [], meta, items, w => ⟨meta, items, w, []⟩
  | sec :: rest, meta, items, w =>
    let m := articleLoop sys mf outdir tmpl sec.Section sec.Articles [] items w
    let s := sectionLoop sys mf outdir tmpl rest (meta ++ [⟨sec.Section, m.Articles⟩])
      m.Items m.world
    { s with events := m.events ++ s.events }

/-- Function `filepath.Abs` on Unix: an absolute path is cleaned, a relative one is joined
to the working directory. -/
def Abs (sys : Sys F) (path : String) (w : World F) : Except GoError String × List Event :=
  if Filepath.IsAbs path then (.ok (Filepath.Clean path), [])
  else
    match osGetwd sys w with
    | .error err => (.error err, [Event.Getwd])
    | .ok wd => (.ok (Filepath.Join [wd, path]), [Event.Getwd])

/-- What a run of the program leaves behind: the exit status, the world, the calls and log
lines issued, and the final values of the locals `meta` and `feed.Items` (empty when the
run ended before the article loop). -/
structure Run (F : Type) where
  exit : Nat
  world : World F
  events : List Event
  meta : List metadata
  Items : List Item

/-- Lines 146-159 of `main`: render the index, build and write the feed, log `done`.
When `feed.ToAtom()` fails the string it returns, `atom`, is empty. -/
def finish (sys : Sys F) (outdir : String) (tmpl : Template) (feed : Feed)
    (meta : List metadata) (w : World F) : Run F :=
  let ix := renderIndex sys (Filepath.Join [outdir, "index.html"]) meta tmpl w
  let evIx : List Event :=
    match ix.1 with
    | some err => [Event.Println err.Error]
    | none => []
  let atom : String :=
    match sys.toAtom feed with
    | .error _ => ""
    | .ok atom => atom
  let evAtom : List Event :=
    match sys.toAtom feed with
    | .error err => [Event.Println ("generating atom feed: " ++ err.Error ++ " (continuing)")]
    | .ok _ => []
  let wf := sys.writeFile ix.2.1 (Filepath.Join [outdir, "weblog.atom"]) atom
  let evWrite : List Event :=
    match wf.1 with
    | some err => [Event.Println ("writing atom feed: " ++ err.Error ++ " (continuing)")]
    | none => []
  { exit := 0, world := { ix.2.1 with fs := wf.2 },
    events := [Event.Println "index"] ++ ix.2.2 ++ evIx ++
      [Event.ToAtom feed] ++ evAtom ++
      [Event.WriteFile (Filepath.Join [outdir, "weblog.atom"]) atom] ++ evWrite ++
      [Event.Println "done"],
    meta := meta, Items := feed.Items }

/-- Lines 111-160 of `main`: the run once the articles output directory exists. -/
def build (sys : Sys F) (mf : manifest) (outdir : String) (tmpl : Template) (w : World F) :
    Run F :=
  let feed : Feed :=
    { Title := mf.Title, Link := ⟨mf.Href⟩, Description := mf.Description,
      Author := ⟨mf.Author, mf.Email⟩, Created := sys.now w, Items := [] }
  let s := sectionLoop sys mf outdir tmpl mf.Sections [] feed.Items w
  let r := finish sys outdir tmpl { feed with Items := s.Items } s.meta s.world
  { r with events := s.events ++ r.events }

/-- A run ended by `log.Fatalln`: the message is logged and the exit status is 1. -/
def fatal (msg : String) (w : World F) (events : List Event) : Run F :=
  { exit := 1, world := w, events := events ++ [Event.Fatalln msg], meta := [], Items := [] }

/-- Function `main` (lines 74-160). `outdir` and `mf` are the values of the flags `-out`
and `-mf` after `flag.Parse()`. -/
def main (sys : Sys F) (outdir mf : String) (w : World F) : Run F :=
  if outdir = "" then fatal "need -out" w []
  else if mf = "" then fatal "need -mf" w []
  else
    match Abs sys outdir w with
    | (.error err, ev) => fatal ("couldn't abs outdir: " ++ err.Error) w ev
    | (.ok outdir, ev) =>
      match sys.readFile w mf with
      | .error err =>
        fatal ("error reading manifest: " ++ err.Error) w (ev ++ [Event.ReadFile mf])
      | .ok s =>
        match sys.unmarshal s with
        | .error err =>
          fatal ("error unmarshaling manifest: " ++ err.Error) w
            (ev ++ [Event.ReadFile mf, Event.Unmarshal s])
        | .ok manifest =>
          match sys.parseFS with
          | .error err =>
            fatal ("error parsing templates: " ++ err.Error) w
              (ev ++ [Event.ReadFile mf, Event.Unmarshal s, Event.ParseFS])
          | .ok tmpl =>
            let dir := Filepath.Join [outdir, "articles"]
            let ev1 := ev ++ [Event.ReadFile mf, Event.Unmarshal s, Event.ParseFS,
              Event.MkdirAll dir]
            match sys.mkdirAll w dir with
            | (some err, fs1) =>
              fatal ("couldn't make articles output dir: " ++ err.Error)
                { w with fs := fs1 } ev1
            | (none, fs1) =>
              let r := build sys manifest outdir tmpl { w with fs := fs1 }
              { r with events := ev1 ++ r.events }

/-! ## Notions used to state the properties -/

/-- The results of `doArticle` for the article ids of one section, each call made in the
world the previous one left, together with the world after the last call. -/
def articleRuns (sys : Sys F) (outdir : String) (tmpl : Template) :
    List String → World F → List ArticleResult × World F
  | [], w => ([], w)
  | art :: rest, w =>
    let r := doArticle sys outdir art tmpl w
    let rs := articleRuns sys outdir tmpl rest r.2.1
    (r.1 :: rs.1, rs.2)

/-- The results of `doArticle` for every section of the manifest, in manifest order. -/
def sectionRuns (sys : Sys F) (outdir : String) (tmpl : Template) :
    List ManifestSection → World F → List (List ArticleResult)
  | [], _ => []
  | sec :: rest, w =>
    let rs := articleRuns sys outdir tmpl sec.Articles w
    rs.1 :: sectionRuns sys outdir tmpl rest rs.2

/-- The article record of a result of `doArticle` that carries no error: output URL, and
title, summary and publish time of the document. -/
def recordOf (r : ArticleResult) : Option article :=
  match r.err, r.doc with
  | none, some doc => some ⟨r.url, doc.Title, doc.Summary, doc.Time⟩
  | _, _ => none

/-- The feed item of a result of `doArticle` that carries no error and whose link join
succeeds: title, summary and publish time of the document, link and id the joined URL. -/
def itemOf (sys : Sys F) (mf : manifest) (r : ArticleResult) : Option Item :=
  match r.err, r.doc with
  | none, some doc =>
    match sys.joinPath mf.Href r.url with
    | .ok l =>
      some { Title := doc.Title, Link := ⟨l⟩, Author := ⟨mf.Author, mf.Email⟩,
             Description := doc.Summary, Id := l, Created := doc.Time }
    | .error _ => none
  | _, _ => none

/-- The world in which `doArticle` runs its body: after `os.Getwd` and `os.Chdir(inp)` both
succeeded. -/
def entered (sys : Sys F) (inp : String) (w : World F) : Option (World F) :=
  match osGetwd sys w with
  | .error _ => none
  | .ok _ =>
    match osChdir sys inp w with
    | (some _, _) => none
    | (none, w1) => some w1

/-- The article's source was successfully parsed: `parse` was called and returned a
document. -/
def parsedOk (sys : Sys F) (inp : String) (w : World F) : Bool :=
  match entered sys inp w with
  | none => false
  | some w1 =>
    match (parse sys inp w1).1 with
    | .ok _ => true
    | .error _ => false

/-- The article's page was successfully rendered: `render` was called and returned no
error. -/
def renderedOk (sys : Sys F) (out inp : String) (tmpl : Template) (w : World F) : Bool :=
  match entered sys inp w with
  | none => false
  | some w1 =>
    match (parse sys inp w1).1 with
    | .ok doc =>
      (render sys (Filepath.Join [out, Filepath.Join ["articles", inp ++ ".html"]])
        doc tmpl w1).1 == none
    | .error _ => false

/-- The working directory was successfully restored: the deferred `os.Chdir(cwd)` ran and
returned no error. -/
def restoredOk (sys : Sys F) (out inp : String) (tmpl : Template) (w : World F) : Bool :=
  match entered sys inp w with
  | none => false
  | some w1 => (osChdir sys w.cwd (doArticleBody sys out inp tmpl w1).2.1).1 == none

/-- The article fails to parse: `parse` was called and returned an error. -/
def parseFails (sys : Sys F) (inp : String) (w : World F) : Bool :=
  match entered sys inp w with
  | none => false
  | some w1 =>
    match (parse sys inp w1).1 with
    | .ok _ => false
    | .error _ => true

/-- The world after the article loops of the given sections. -/
def worldAfterSections (sys : Sys F) (outdir : String) (tmpl : Template) :
    List ManifestSection → World F → World F
  | [], w => w
  | sec :: rest, w =>
    worldAfterSections sys outdir tmpl rest (articleRuns sys outdir tmpl sec.Articles w).2

/-- The error `r` wraps `e`: `e` is on the `Unwrap` chain of `r`, as `errors.Is` sees it. -/
def wraps (r e : GoError) : Prop := e ∈ r.chain

/-- The message of `r` contains the message of `n`. -/
def mentions (r n : GoError) : Prop := n.Error.toList <:+: r.Error.toList

/-- What is asked of a function that runs a body and then a release step, given the error
of the body, the error of the release step and the error returned: a failed release is
reported, together with the error of the body when there is one; a successful release
leaves the error of the body as it is. -/
def combines (body release result : Option GoError) : Prop :=
  match release, body, result with
  | none, b, r => r = b
  | some n, none, some r => wraps r n ∧ mentions r n
  | some n, some e, some r => wraps r e ∧ mentions r e ∧ mentions r n
  | some _, _, none => False

instance (r e : GoError) : Decidable (wraps r e) := by
  unfold wraps; infer_instance

instance (r n : GoError) : Decidable (mentions r n) := by
  unfold mentions; infer_instance

instance (body release result : Option GoError) : Decidable (combines body release result) := by
  unfold combines
  cases release <;> cases body <;> cases result <;> simp only <;> infer_instance

/-- A path element that `filepath.Clean` keeps as it is: not empty, not `.`, not `..`. -/
def realElem (e : List Char) : Bool := e != [] && e != ['.'] && e != ['.', '.']

/-- An article id whose path elements before the last are all real: the elements of
`articles/<id>.html` are then real too. -/
def plainId (id : String) : Bool := ((id.toList.splitOn '/').dropLast).all realElem

/-! ## A sample site

A concrete system for evaluating the program: the site lives in `/site`, with article
directories `foo`, `bar` (well formed) and `bad` (its source does not parse). Failures of
the other calls are switched on by the fields of `Faults`. The file-system state is the
list of the files written, most recent first.
-/

/-- Which calls fail in the sample system. -/
structure Faults where
  /-- The directory from which `os.Chdir` to an absolute path fails. -/
  stuckIn : Option String := none
  /-- The call `os.Chdir` to an absolute path fails from everywhere. -/
  noReturn : Bool := false
  /-- The call `doc.Render` fails on documents with this title. -/
  renderFails : Option String := none
  /-- Every call of `f.Close` fails. -/
  closeFails : Bool := false
  /-- The call `url.JoinPath` fails on this element. -/
  joinFails : Option String := none
  /-- The call `tmpl.ExecuteTemplate` fails. -/
  indexFails : Bool := false
  /-- The call `feed.ToAtom` fails. -/
  atomFails : Bool := false
  /-- The call `os.WriteFile` fails. -/
  writeFails : Bool := false

/-- File-system state of the sample system: name and content of the files written. -/
abbrev Files := List (String × String)

/-- The directory a path names, seen from the working directory. -/
def sampleTarget (w : World Files) (path : String) : String :=
  Filepath.Clean (if Filepath.IsAbs path then path else w.cwd ++ "/" ++ path)

/-- The documents of the sample site, by source file. -/
def sampleDoc (file : String) : Option Doc :=
  if file = "/site/foo/foo.article" then
    some ⟨"Foo", "About foo", ⟨100⟩, "foo body"⟩
  else if file = "/site/bar/bar.article" then
    some ⟨"Bar", "About bar", ⟨200⟩, "bar body"⟩
  else none

/-- The sample system, with the manifest that `site.json` holds and the faults to inject. -/
def sampleSys (mf : manifest) (flt : Faults) : Sys Files where
  getwdErr := fun _ => none
  chdirErr := fun w dir =>
    if Filepath.IsAbs dir ∧ (flt.noReturn ∨ flt.stuckIn = some w.cwd) then
      some (.leaf ("chdir " ++ dir ++ ": input/output error"))
    else if sampleTarget w dir ∈ ["/site", "/site/foo", "/site/bar", "/site/bad"] then none
    else some (.leaf ("chdir " ++ dir ++ ": no such file or directory"))
  openErr := fun w name =>
    if sampleTarget w name ∈
        ["/site/foo/foo.article", "/site/bar/bar.article", "/site/bad/bad.article"] then none
    else some (.leaf ("open " ++ name ++ ": no such file or directory"))
  presentParse := fun w file _ =>
    match sampleDoc (sampleTarget w file) with
    | some doc => .ok doc
    | none => .error (.leaf (file ++ ":1: unexpected end of file"))
  create := fun w name => (none, (name, "") :: w.fs)
  docRender := fun w name doc _ =>
    if flt.renderFails = some doc.Title then
      (some (.leaf "template: article: execution failed"), w.fs)
    else (none, (name, "<h1>" ++ doc.Title ++ "</h1>" ++ doc.Body) :: w.fs)
  executeTemplate := fun w file _ data _ =>
    if flt.indexFails then (some (.leaf "template: index: execution failed"), w.fs)
    else (none, (file, String.intercalate "," (data.map (fun m => m.Section))) :: w.fs)
  close := fun w name =>
    if flt.closeFails then (some (.leaf ("close " ++ name ++ ": input/output error")), w.fs)
    else (none, w.fs)
  joinPath := fun base e =>
    if flt.joinFails = some e then .error (.leaf ("parse " ++ base ++ ": invalid URL"))
    else .ok (base ++ "/" ++ e)
  toAtom := fun feed =>
    if flt.atomFails then .error (.leaf "xml: unsupported type")
    else .ok ("<feed>" ++ String.intercalate "," (feed.Items.map (fun i => i.Id)) ++ "</feed>")
  writeFile := fun w name data =>
    if flt.writeFails then (some (.leaf ("open " ++ name ++ ": permission denied")), w.fs)
    else (none, (name, data) :: w.fs)
  readFile := fun w name =>
    if sampleTarget w name = "/site/site.json" then .ok "site.json"
    else .error (.leaf ("open " ++ name ++ ": no such file or directory"))
  unmarshal := fun s =>
    if s = "site.json" then .ok mf else .error (.leaf "unexpected end of JSON input")
  parseFS := .ok ⟨["actions", "head", "index", "article", "footer"]⟩
  mkdirAll := fun w _ => (none, w.fs)
  now := fun _ => ⟨1000⟩

/-- The world in which the sample runs start: in `/site`, nothing written yet. -/
def sampleWorld : World Files := ⟨"/site", []⟩

/-- A sample manifest with the given sections. -/
def sampleManifest (secs : List ManifestSection) : manifest :=
  { Title := "Weblog", Author := "A. Author", Email := "a@example.com",
    Href := "https://example.com/blog", Description := "A weblog", Sections := secs }

/-! ## Section records and feed items are the filtered results of the calls -/

theorem doArticleBody_doc (sys : Sys F) (out inp : String) (tmpl : Template) (w : World F)
    (h : (doArticleBody sys out inp tmpl w).1.err = none) :
    ∃ doc, (doArticleBody sys out inp tmpl w).1.doc = some doc ∧
      (doArticleBody sys out inp tmpl w).1.when = doc.Time ∧
      (doArticleBody sys out inp tmpl w).1.url =
        Filepath.ToSlash (Filepath.Join ["articles", inp ++ ".html"]) := by
  unfold doArticleBody at h ⊢
  split
  · rename_i err ev heq
    simp [heq] at h
  · rename_i doc ev heq
    exact ⟨doc, rfl, rfl, rfl⟩

theorem deferChdir_none (cwd : String) (err nerr : Option GoError)
    (h : deferChdir cwd err nerr = none) : err = none ∧ nerr = none := by
  cases nerr <;> cases err <;> simp [deferChdir] at h ⊢

theorem doArticle_doc (sys : Sys F) (out inp : String) (tmpl : Template) (w : World F)
    (h : (doArticle sys out inp tmpl w).1.err = none) :
    ∃ doc, (doArticle sys out inp tmpl w).1.doc = some doc ∧
      (doArticle sys out inp tmpl w).1.when = doc.Time ∧
      (doArticle sys out inp tmpl w).1.url =
        Filepath.ToSlash (Filepath.Join ["articles", inp ++ ".html"]) := by
  rcases hg : osGetwd sys w with e | cwd
  · simp [doArticle, hg] at h
  · rcases hc : osChdir sys inp w with ⟨_ | e, w1⟩
    · simp only [doArticle, hg, hc] at h ⊢
      exact doArticleBody_doc sys out inp tmpl w1 (deferChdir_none _ _ _ h).1
    · simp [doArticle, hg, hc] at h

theorem articleLoop_spec (sys : Sys F) (mf : manifest) (outdir : String) (tmpl : Template)
    (sec : String) (arts : List String) :
    ∀ (acc : List article) (items : List Item) (w : World F),
      (articleLoop sys mf outdir tmpl sec arts acc items w).Articles =
          acc ++ (articleRuns sys outdir tmpl arts w).1.filterMap recordOf ∧
      (articleLoop sys mf outdir tmpl sec arts acc items w).Items =
          items ++ (articleRuns sys outdir tmpl arts w).1.filterMap (itemOf sys mf) ∧
      (articleLoop sys mf outdir tmpl sec arts acc items w).world =
          (articleRuns sys outdir tmpl arts w).2 := by
  induction arts with
  | nil => intro acc items w; simp [articleLoop, articleRuns]
  | cons art rest ih =>
    intro acc items w
    simp only [articleLoop, articleRuns]
    split
    · rename_i err he
      simp only [ih, List.filterMap_cons, recordOf, itemOf, he]
      simp
    · rename_i he hd
      simp only [ih, List.filterMap_cons, recordOf, itemOf, he, hd]
      simp
    · rename_i doc he hd
      have hw := doArticle_doc sys outdir art tmpl w he
      obtain ⟨doc', hd', hwhen, _⟩ := hw
      rw [hd] at hd'
      cases hd'
      split
      · rename_i err hj
        simp only [ih, List.filterMap_cons, recordOf, itemOf, he, hd, hj]
        simp
      · rename_i l hj
        simp only [ih, List.filterMap_cons, recordOf, itemOf, he, hd, hj, hwhen]
        simp

theorem articleRuns_length (sys : Sys F) (outdir : String) (tmpl : Template)
    (arts : List String) :
    ∀ w : World F, (articleRuns sys outdir tmpl arts w).1.length = arts.length := by
  induction arts with
  | nil => intro w; rfl
  | cons art rest ih => intro w; simp [articleRuns, ih]

theorem articleRuns_getElem (sys : Sys F) (outdir : String) (tmpl : Template)
    (arts : List String) :
    ∀ (w : World F) (j : Nat) (id : String), arts[j]? = some id →
      ∃ w', (articleRuns sys outdir tmpl arts w).1[j]? =
        some (doArticle sys outdir id tmpl w').1 := by
  induction arts with
  | nil => intro w j id h; simp at h
  | cons art rest ih =>
    intro w j id h
    cases j with
    | zero =>
      simp at h
      subst h
      exact ⟨w, by simp [articleRuns]⟩
    | succ j =>
      simp at h
      obtain ⟨w', hw'⟩ := ih (doArticle sys outdir art tmpl w).2.1 j id h
      exact ⟨w', by simpa [articleRuns] using hw'⟩

theorem articleRuns_mem (sys : Sys F) (outdir : String) (tmpl : Template)
    (arts : List String) :
    ∀ (w : World F) (r : ArticleResult), r ∈ (articleRuns sys outdir tmpl arts w).1 →
      ∃ id w', id ∈ arts ∧ r = (doArticle sys outdir id tmpl w').1 := by
  induction arts with
  | nil => intro w r h; simp [articleRuns] at h
  | cons art rest ih =>
    intro w r h
    simp only [articleRuns, List.mem_cons] at h
    rcases h with h | h
    · exact ⟨art, w, by simp, h⟩
    · obtain ⟨id, w', hid, hr⟩ := ih _ r h
      exact ⟨id, w', by simp [hid], hr⟩

theorem recordOf_isSome (sys : Sys F) (outdir : String) (tmpl : Template)
    (arts : List String) (w : World F) (r : ArticleResult)
    (h : r ∈ (articleRuns sys outdir tmpl arts w).1) :
    (recordOf r).isSome ↔ r.err = none := by
  obtain ⟨id, w', _, hr⟩ := articleRuns_mem sys outdir tmpl arts w r h
  constructor
  · intro hs
    cases he : r.err with
    | none => rfl
    | some e => simp [recordOf, he] at hs
  · intro he
    have hd := doArticle_doc sys outdir id tmpl w' (hr ▸ he)
    obtain ⟨doc, hdoc, _, _⟩ := hd
    rw [← hr] at hdoc
    simp [recordOf, he, hdoc]

/-- The section records the specification describes: one per section, carrying the
section name and the records of the error-free results. -/
theorem sectionLoop_spec (sys : Sys F) (mf : manifest) (outdir : String) (tmpl : Template)
    (secs : List ManifestSection) :
    ∀ (meta : List metadata) (items : List Item) (w : World F),
      (sectionLoop sys mf outdir tmpl secs meta items w).meta =
          meta ++ List.zipWith
            (fun sec rs => (⟨sec.Section, rs.filterMap recordOf⟩ : metadata))
            secs (sectionRuns sys outdir tmpl secs w) ∧
      (sectionLoop sys mf outdir tmpl secs meta items w).Items =
          items ++ (sectionRuns sys outdir tmpl secs w).flatten.filterMap (itemOf sys mf) := by
  induction secs with
  | nil => intro meta items w; simp [sectionLoop, sectionRuns]
  | cons sec rest ih =>
    intro meta items w
    obtain ⟨ha, hi, hw⟩ := articleLoop_spec sys mf outdir tmpl sec.Section sec.Articles [] items w
    simp only [sectionLoop, sectionRuns, ih, ha, hi, hw]
    simp

theorem sectionRuns_length (sys : Sys F) (outdir : String) (tmpl : Template)
    (secs : List ManifestSection) :
    ∀ w : World F, (sectionRuns sys outdir tmpl secs w).length = secs.length := by
  induction secs with
  | nil => intro w; rfl
  | cons sec rest ih => intro w; simp [sectionRuns, ih]

theorem sectionRuns_getElem (sys : Sys F) (outdir : String) (tmpl : Template)
    (secs : List ManifestSection) :
    ∀ (w : World F) (i : Nat) (sec : ManifestSection), secs[i]? = some sec →
      ∃ w', (sectionRuns sys outdir tmpl secs w)[i]? =
        some (articleRuns sys outdir tmpl sec.Articles w').1 := by
  induction secs with
  | nil => intro w i sec h; simp at h
  | cons s rest ih =>
    intro w i sec h
    cases i with
    | zero =>
      simp at h
      subst h
      exact ⟨w, by simp [sectionRuns]⟩
    | succ i =>
      simp at h
      obtain ⟨w', hw'⟩ := ih (articleRuns sys outdir tmpl s.Articles w).2 i sec h
      exact ⟨w', by simpa [sectionRuns] using hw'⟩

theorem build_meta (sys : Sys F) (mf : manifest) (outdir : String) (tmpl : Template)
    (w : World F) :
    (build sys mf outdir tmpl w).meta = (sectionLoop sys mf outdir tmpl mf.Sections [] [] w).meta :=
  rfl

theorem build_Items (sys : Sys F) (mf : manifest) (outdir : String) (tmpl : Template)
    (w : World F) :
    (build sys mf outdir tmpl w).Items =
      (sectionLoop sys mf outdir tmpl mf.Sections [] [] w).Items :=
  rfl

/-- C1: the section records built by the run are, section by section in manifest order,
the section name with the records of exactly those article ids whose `doArticle` call
returned no error, in declared order; a section without ids, or whose every article
fails, yields a record with no articles. -/
theorem C1_section_records (sys : Sys F) (mf : manifest) (outdir : String) (tmpl : Template)
    (w : World F) :
    (build sys mf outdir tmpl w).meta =
        List.zipWith (fun sec rs => (⟨sec.Section, rs.filterMap recordOf⟩ : metadata))
          mf.Sections (sectionRuns sys outdir tmpl mf.Sections w) ∧
    (build sys mf outdir tmpl w).meta.map (fun m => m.Section) =
        mf.Sections.map (fun s => s.Section) ∧
    (∀ (i : Nat) (sec : ManifestSection), mf.Sections[i]? = some sec →
      ∃ rs : List ArticleResult, (sectionRuns sys outdir tmpl mf.Sections w)[i]? = some rs ∧
        rs.length = sec.Articles.length ∧
        (∀ (j : Nat) (id : String), sec.Articles[j]? = some id →
          ∃ w', rs[j]? = some (doArticle sys outdir id tmpl w').1) ∧
        (∀ r ∈ rs, (recordOf r).isSome ↔ r.err = none) ∧
        (build sys mf outdir tmpl w).meta[i]? =
          some ⟨sec.Section, rs.filterMap recordOf⟩ ∧
        ((∀ r ∈ rs, r.err ≠ none) →
          (build sys mf outdir tmpl w).meta[i]? = some ⟨sec.Section, []⟩)) := by
  have hmeta := (sectionLoop_spec sys mf outdir tmpl mf.Sections [] [] w).1
  rw [List.nil_append] at hmeta
  have hlen := sectionRuns_length sys outdir tmpl mf.Sections w
  refine ⟨by rw [build_meta, hmeta], ?_, ?_⟩
  · rw [build_meta, hmeta]
    apply List.ext_getElem?
    intro n
    simp only [List.getElem?_map, List.getElem?_zipWith]
    cases h1 : mf.Sections[n]? with
    | none => simp
    | some sec =>
      have hn : n < (sectionRuns sys outdir tmpl mf.Sections w).length := by
        rw [hlen]; exact (List.getElem?_eq_some.mp h1).1
      simp [List.getElem?_eq_getElem hn]
  · intro i sec hsec
    obtain ⟨w', hw'⟩ := sectionRuns_getElem sys outdir tmpl mf.Sections w i sec hsec
    have hi : (build sys mf outdir tmpl w).meta[i]? =
        some ⟨sec.Section, (articleRuns sys outdir tmpl sec.Articles w').1.filterMap recordOf⟩ := by
      rw [build_meta, hmeta, List.getElem?_zipWith, hsec, hw']
    refine ⟨_, hw', articleRuns_length _ _ _ _ _, ?_, ?_, hi, ?_⟩
    · intro j id hj
      exact articleRuns_getElem sys outdir tmpl sec.Articles w' j id hj
    · intro r hr
      exact recordOf_isSome sys outdir tmpl sec.Articles w' r hr
    · intro hall
      rw [hi]
      congr 2
      apply List.filterMap_eq_nil_iff.mpr
      intro r hr
      cases he : r.err with
      | none => exact absurd he (hall r hr)
      | some e => simp [recordOf, he]

/-! ## When a record is appended -/

theorem entered_some (sys : Sys F) (inp : String) (w w1 : World F)
    (h : entered sys inp w = some w1) :
    osGetwd sys w = .ok w.cwd ∧ osChdir sys inp w = (none, w1) := by
  unfold entered at h
  rcases hg : osGetwd sys w with e | cwd
  · simp [hg] at h
  · rcases hc : osChdir sys inp w with ⟨_ | e, w2⟩
    · simp [hg, hc] at h
      subst h
      refine ⟨?_, rfl⟩
      unfold osGetwd at hg
      cases hge : sys.getwdErr w with
      | none => simp [hge] at hg; rw [hg]
      | some e => simp [hge] at hg
    · simp [hg, hc] at h

theorem doArticle_entered (sys : Sys F) (out inp : String) (tmpl : Template) (w w1 : World F)
    (h : entered sys inp w = some w1) :
    doArticle sys out inp tmpl w =
      ({ (doArticleBody sys out inp tmpl w1).1 with
          err := deferChdir w.cwd (doArticleBody sys out inp tmpl w1).1.err
            (osChdir sys w.cwd (doArticleBody sys out inp tmpl w1).2.1).1 },
        (osChdir sys w.cwd (doArticleBody sys out inp tmpl w1).2.1).2,
        [Event.Getwd, Event.Chdir inp] ++ (doArticleBody sys out inp tmpl w1).2.2 ++
          [Event.Chdir w.cwd]) := by
  obtain ⟨hg, hc⟩ := entered_some sys inp w w1 h
  simp only [doArticle, hg, hc]

theorem doArticle_not_entered (sys : Sys F) (out inp : String) (tmpl : Template) (w : World F)
    (h : entered sys inp w = none) :
    (doArticle sys out inp tmpl w).1.err ≠ none ∧ (doArticle sys out inp tmpl w).2.1 = w := by
  unfold entered at h
  rcases hg : osGetwd sys w with e | cwd
  · simp [doArticle, hg]
  · rcases hc : osChdir sys inp w with ⟨_ | e, w2⟩
    · simp [hg, hc] at h
    · simp only [doArticle, hg, hc]
      refine ⟨by simp, ?_⟩
      unfold osChdir at hc
      cases hce : sys.chdirErr w inp with
      | none => simp [hce] at hc
      | some e' => simp [hce] at hc; exact hc.2.symm

theorem doArticleBody_err (sys : Sys F) (out inp : String) (tmpl : Template) (w1 : World F) :
    (doArticleBody sys out inp tmpl w1).1.err =
      match (parse sys inp w1).1 with
      | .error err => some err
      | .ok doc =>
        (render sys (Filepath.Join [out, Filepath.Join ["articles", inp ++ ".html"]])
          doc tmpl w1).1 := by
  unfold doArticleBody
  rcases hp : parse sys inp w1 with ⟨e | doc, ev⟩ <;> simp

/-- The error `doArticle` returns is absent exactly when parsing, rendering and the
restore of the working directory all succeeded. -/
theorem doArticle_err_none_iff (sys : Sys F) (out inp : String) (tmpl : Template)
    (w : World F) :
    (doArticle sys out inp tmpl w).1.err = none ↔
      (parsedOk sys inp w = true ∧ renderedOk sys out inp tmpl w = true ∧
        restoredOk sys out inp tmpl w = true) := by
  cases he : entered sys inp w with
  | none =>
    have := (doArticle_not_entered sys out inp tmpl w he).1
    simp [parsedOk, he, this]
  | some w1 =>
    rw [doArticle_entered sys out inp tmpl w w1 he]
    simp only [parsedOk, renderedOk, restoredOk, he]
    have hb := doArticleBody_err sys out inp tmpl w1
    rcases hp : (parse sys inp w1).1 with e | doc
    · simp [hp] at hb
      simp only [hb]
      cases hn : (osChdir sys w.cwd (doArticleBody sys out inp tmpl w1).2.1).1 <;>
        simp [deferChdir]
    · simp [hp] at hb
      simp only [hb]
      cases hn : (osChdir sys w.cwd (doArticleBody sys out inp tmpl w1).2.1).1 <;>
        cases hr : (render sys (Filepath.Join [out, Filepath.Join ["articles", inp ++ ".html"]])
          doc tmpl w1).1 <;> simp [deferChdir]

/-- C2 (amended): one pass of the article loop appends a record exactly when `doArticle`
returns no error, that is when the source was parsed, the page rendered and the working
directory restored, all successfully; otherwise the section's records are unchanged. -/
theorem C2_record_iff (sys : Sys F) (mf : manifest) (outdir : String) (tmpl : Template)
    (sec inp : String) (acc : List article) (items : List Item) (w : World F) :
    ((∃ rec, (articleLoop sys mf outdir tmpl sec [inp] acc items w).Articles = acc ++ [rec]) ↔
      (parsedOk sys inp w = true ∧ renderedOk sys outdir inp tmpl w = true ∧
        restoredOk sys outdir inp tmpl w = true)) ∧
    ((∃ rec, (articleLoop sys mf outdir tmpl sec [inp] acc items w).Articles = acc ++ [rec]) ↔
      (doArticle sys outdir inp tmpl w).1.err = none) ∧
    ((doArticle sys outdir inp tmpl w).1.err ≠ none →
      (articleLoop sys mf outdir tmpl sec [inp] acc items w).Articles = acc) := by
  have hA := (articleLoop_spec sys mf outdir tmpl sec [inp] acc items w).1
  have key : (∃ rec, (articleLoop sys mf outdir tmpl sec [inp] acc items w).Articles =
      acc ++ [rec]) ↔ (doArticle sys outdir inp tmpl w).1.err = none := by
    rw [hA]
    simp only [articleRuns, List.filterMap_cons, List.filterMap_nil]
    constructor
    · rintro ⟨rec, h⟩
      cases he : (doArticle sys outdir inp tmpl w).1.err with
      | none => rfl
      | some e =>
        simp [recordOf, he] at h
    · intro he
      obtain ⟨doc, hdoc, _, _⟩ := doArticle_doc sys outdir inp tmpl w he
      exact ⟨⟨(doArticle sys outdir inp tmpl w).1.url, doc.Title, doc.Summary, doc.Time⟩,
        by simp [recordOf, he, hdoc]⟩
  refine ⟨?_, key, ?_⟩
  · rw [key, doArticle_err_none_iff]
  · intro hne
    rw [hA]
    cases he : (doArticle sys outdir inp tmpl w).1.err with
    | none => exact absurd he hne
    | some e => simp [articleRuns, recordOf, he]


/-- C2 (as stated, refuted): in the sample site with the return to an absolute directory
failing, article `foo` is parsed and rendered successfully and yet no record is appended. -/
theorem C2_counterexample :
    ¬ ((∃ rec, (articleLoop (sampleSys (sampleManifest []) { noReturn := true })
          (sampleManifest []) "/site/out" ⟨[]⟩ "One" ["foo"] [] [] sampleWorld).Articles =
            [] ++ [rec]) ↔
        (parsedOk (sampleSys (sampleManifest []) { noReturn := true }) "foo" sampleWorld = true ∧
          renderedOk (sampleSys (sampleManifest []) { noReturn := true }) "/site/out" "foo"
            ⟨[]⟩ sampleWorld = true)) := by
  intro h
  have hp : parsedOk (sampleSys (sampleManifest []) { noReturn := true }) "foo" sampleWorld = true ∧
      renderedOk (sampleSys (sampleManifest []) { noReturn := true }) "/site/out" "foo"
        ⟨[]⟩ sampleWorld = true := by decide
  obtain ⟨rec, hrec⟩ := h.mpr hp
  have hnil : (articleLoop (sampleSys (sampleManifest []) { noReturn := true })
      (sampleManifest []) "/site/out" ⟨[]⟩ "One" ["foo"] [] [] sampleWorld).Articles = [] := by
    decide
  rw [hnil] at hrec
  simp at hrec

/-- Sample evaluation for C2: with no fault, `foo` gets its record. -/
theorem C2_witness :
    (∃ rec, (articleLoop (sampleSys (sampleManifest []) {}) (sampleManifest []) "/site/out"
        ⟨[]⟩ "One" ["foo"] [] [] sampleWorld).Articles = [] ++ [rec]) ∧
    parsedOk (sampleSys (sampleManifest []) {}) "foo" sampleWorld = true ∧
    renderedOk (sampleSys (sampleManifest []) {}) "/site/out" "foo" ⟨[]⟩ sampleWorld = true ∧
    restoredOk (sampleSys (sampleManifest []) {}) "/site/out" "foo" ⟨[]⟩ sampleWorld = true := by
  have hc : parsedOk (sampleSys (sampleManifest []) {}) "foo" sampleWorld = true ∧
    renderedOk (sampleSys (sampleManifest []) {}) "/site/out" "foo" ⟨[]⟩ sampleWorld = true ∧
    restoredOk (sampleSys (sampleManifest []) {}) "/site/out" "foo" ⟨[]⟩ sampleWorld = true := by
    decide
  exact ⟨(C2_record_iff (sampleSys (sampleManifest []) {}) (sampleManifest []) "/site/out"
    ⟨[]⟩ "One" "foo" [] [] sampleWorld).1.mpr hc, hc⟩


/-! ## Feed items -/

theorem sectionRuns_mem (sys : Sys F) (outdir : String) (tmpl : Template)
    (secs : List ManifestSection) :
    ∀ (w : World F) (r : ArticleResult), r ∈ (sectionRuns sys outdir tmpl secs w).flatten →
      ∃ sec id w', sec ∈ secs ∧ id ∈ sec.Articles ∧ r = (doArticle sys outdir id tmpl w').1 := by
  induction secs with
  | nil => intro w r h; simp [sectionRuns] at h
  | cons s rest ih =>
    intro w r h
    simp only [sectionRuns, List.flatten_cons, List.mem_append] at h
    rcases h with h | h
    · obtain ⟨id, w', hid, hr⟩ := articleRuns_mem sys outdir tmpl s.Articles w r h
      exact ⟨s, id, w', by simp, hid, hr⟩
    · obtain ⟨sec, id, w', hsec, hid, hr⟩ := ih _ r h
      exact ⟨sec, id, w', by simp [hsec], hid, hr⟩

/-- C3: the feed items are, in manifest order, the items of the results of `doArticle`
that carry no error and whose link join succeeds; an item has the document's title,
summary and publish time, and the joined URL as link and id; a result whose join fails
has no item but keeps its record. For id `foo` the joined element is `articles/foo.html`,
so the link is whatever `url.JoinPath` returns for the manifest href and that element. -/
theorem C3_feed_items (sys : Sys F) (mf : manifest) (outdir : String) (tmpl : Template)
    (w : World F) :
    (build sys mf outdir tmpl w).Items =
        (sectionRuns sys outdir tmpl mf.Sections w).flatten.filterMap (itemOf sys mf) ∧
    (build sys mf outdir tmpl w).meta =
        List.zipWith (fun sec rs => (⟨sec.Section, rs.filterMap recordOf⟩ : metadata))
          mf.Sections (sectionRuns sys outdir tmpl mf.Sections w) ∧
    (∀ r ∈ (sectionRuns sys outdir tmpl mf.Sections w).flatten, r.err = none →
      ∃ doc : Doc, r.doc = some doc ∧
        recordOf r = some ⟨r.url, doc.Title, doc.Summary, doc.Time⟩ ∧
        ((∀ l, sys.joinPath mf.Href r.url = .ok l →
            itemOf sys mf r = some ⟨doc.Title, ⟨l⟩, ⟨mf.Author, mf.Email⟩, doc.Summary, l,
              doc.Time⟩) ∧
         (∀ e, sys.joinPath mf.Href r.url = .error e → itemOf sys mf r = none))) ∧
    (∀ r ∈ (sectionRuns sys outdir tmpl mf.Sections w).flatten, r.err ≠ none →
      itemOf sys mf r = none ∧ recordOf r = none) ∧
    (∀ (w' : World F) (l : String),
      (doArticle sys outdir "foo" tmpl w').1.err = none →
      sys.joinPath mf.Href "articles/foo.html" = .ok l →
      ∃ doc : Doc, itemOf sys mf (doArticle sys outdir "foo" tmpl w').1 =
        some ⟨doc.Title, ⟨l⟩, ⟨mf.Author, mf.Email⟩, doc.Summary, l, doc.Time⟩) := by
  have hspec := sectionLoop_spec sys mf outdir tmpl mf.Sections [] [] w
  simp only [List.nil_append] at hspec
  refine ⟨by rw [build_Items, hspec.2], by rw [build_meta, hspec.1], ?_, ?_, ?_⟩
  · intro r hr he
    obtain ⟨sec, id, w', _, _, hrd⟩ := sectionRuns_mem sys outdir tmpl mf.Sections w r hr
    obtain ⟨doc, hdoc, _, _⟩ := doArticle_doc sys outdir id tmpl w' (hrd ▸ he)
    rw [← hrd] at hdoc
    refine ⟨doc, hdoc, by simp [recordOf, he, hdoc], ?_, ?_⟩
    · intro l hl
      simp [itemOf, he, hdoc, hl]
    · intro e hl
      simp [itemOf, he, hdoc, hl]
  · intro r _ he
    cases h : r.err with
    | none => exact absurd h he
    | some e => simp [itemOf, recordOf, h]
  · intro w' l he hl
    obtain ⟨doc, hdoc, _, hurl⟩ := doArticle_doc sys outdir "foo" tmpl w' he
    have hu : Filepath.ToSlash (Filepath.Join ["articles", "foo" ++ ".html"]) =
        "articles/foo.html" := by decide
    rw [hu] at hurl
    exact ⟨doc, by simp [itemOf, he, hdoc, hurl, hl]⟩

/-- Sample evaluation for C3: href `https://example.com/blog`, articles `foo`, then `bar`
whose link join fails: the feed holds the one item of `foo`, with link
`https://example.com/blog/articles/foo.html`, and `bar` keeps its record. -/
theorem C3_witness :
    (build (sampleSys (sampleManifest [⟨"One", ["foo", "bar"]⟩])
        { joinFails := some "articles/bar.html" })
      (sampleManifest [⟨"One", ["foo", "bar"]⟩]) "/site/out" ⟨[]⟩ sampleWorld).Items =
      [⟨"Foo", ⟨"https://example.com/blog/articles/foo.html"⟩,
        ⟨"A. Author", "a@example.com"⟩, "About foo",
        "https://example.com/blog/articles/foo.html", ⟨100⟩⟩] ∧
    (build (sampleSys (sampleManifest [⟨"One", ["foo", "bar"]⟩])
        { joinFails := some "articles/bar.html" })
      (sampleManifest [⟨"One", ["foo", "bar"]⟩]) "/site/out" ⟨[]⟩ sampleWorld).meta =
      [⟨"One", [⟨"articles/foo.html", "Foo", "About foo", ⟨100⟩⟩,
                ⟨"articles/bar.html", "Bar", "About bar", ⟨200⟩⟩]⟩] :=
  ⟨(C3_feed_items (sampleSys (sampleManifest [⟨"One", ["foo", "bar"]⟩])
        { joinFails := some "articles/bar.html" })
      (sampleManifest [⟨"One", ["foo", "bar"]⟩]) "/site/out" ⟨[]⟩ sampleWorld).1.trans
      (by decide),
    (C3_feed_items (sampleSys (sampleManifest [⟨"One", ["foo", "bar"]⟩])
        { joinFails := some "articles/bar.html" })
      (sampleManifest [⟨"One", ["foo", "bar"]⟩]) "/site/out" ⟨[]⟩ sampleWorld).2.1.trans
      (by decide)⟩

/-- Sample evaluation for C1: sections `One` (articles `foo`, then `bad` that does not
parse), `Two` (no ids) and `Three` (only `bad`) give three records, the last two empty. -/
theorem C1_witness :
    (build (sampleSys (sampleManifest []) {})
      (sampleManifest [⟨"One", ["foo", "bad"]⟩, ⟨"Two", []⟩, ⟨"Three", ["bad"]⟩])
      "/site/out" ⟨[]⟩ sampleWorld).meta =
      [⟨"One", [⟨"articles/foo.html", "Foo", "About foo", ⟨100⟩⟩]⟩, ⟨"Two", []⟩,
       ⟨"Three", []⟩] :=
  (C1_section_records (sampleSys (sampleManifest []) {})
      (sampleManifest [⟨"One", ["foo", "bad"]⟩, ⟨"Two", []⟩, ⟨"Three", ["bad"]⟩])
      "/site/out" ⟨[]⟩ sampleWorld).1.trans (by decide)


/-! ## Errors of a release step -/

theorem wraps_self (r : GoError) : wraps r r := by
  unfold wraps
  cases r <;> simp [GoError.chain]

theorem mentions_Errorf (pre : String) (n : GoError) : mentions (Errorf pre n) n := by
  show n.Error.toList <:+: (pre ++ n.Error).toList
  simp only [String.toList, String.data_append]
  exact ⟨pre.data, [], by simp⟩

theorem wraps_Errorf (pre : String) (n : GoError) : wraps (Errorf pre n) n := by
  unfold wraps Errorf
  simp only [GoError.chain, List.mem_cons]
  exact Or.inr (wraps_self n)

theorem wraps_ErrorfAnd (e : GoError) (mid : String) (n : GoError) :
    wraps (ErrorfAnd e mid n) e := by
  unfold wraps ErrorfAnd
  simp only [GoError.chain, List.mem_cons]
  exact Or.inr (wraps_self e)

theorem mentions_ErrorfAnd_left (e : GoError) (mid : String) (n : GoError) :
    mentions (ErrorfAnd e mid n) e := by
  show e.Error.toList <:+: (e.Error ++ mid ++ n.Error).toList
  simp only [String.toList, String.data_append]
  exact ⟨[], mid.data ++ n.Error.data, by simp⟩

theorem mentions_ErrorfAnd_right (e : GoError) (mid : String) (n : GoError) :
    mentions (ErrorfAnd e mid n) n := by
  show n.Error.toList <:+: (e.Error ++ mid ++ n.Error).toList
  simp only [String.toList, String.data_append]
  exact ⟨e.Error.data ++ mid.data, [], by simp⟩

theorem combines_deferClose (out : String) (err nerr : Option GoError) :
    combines err nerr (deferClose out err nerr) := by
  cases nerr with
  | none => cases err <;> simp [combines, deferClose]
  | some n =>
    cases err with
    | none => exact ⟨wraps_Errorf _ n, mentions_Errorf _ n⟩
    | some e =>
      exact ⟨wraps_ErrorfAnd e _ n, mentions_ErrorfAnd_left e _ n, mentions_ErrorfAnd_right e _ n⟩

theorem combines_deferChdir (cwd : String) (err nerr : Option GoError) :
    combines err nerr (deferChdir cwd err nerr) := by
  cases nerr with
  | none => cases err <;> simp [combines, deferChdir]
  | some n =>
    cases err with
    | none => exact ⟨wraps_Errorf _ n, mentions_Errorf _ n⟩
    | some e =>
      exact ⟨wraps_ErrorfAnd e _ n, mentions_ErrorfAnd_left e _ n, mentions_ErrorfAnd_right e _ n⟩

/-- C8: in `doArticle` (release step: restoring the working directory) and in `render` and
`renderIndex` (release step: closing the output file), a failed release after a failed
body returns an error that wraps the body's error and mentions both; a failed release
after a successful body returns an error reporting the release failure; a successful
release returns exactly the body's error. -/
theorem C8_release_errors (sys : Sys F) :
    (∀ (out inp : String) (tmpl : Template) (w w1 : World F), entered sys inp w = some w1 →
      combines (doArticleBody sys out inp tmpl w1).1.err
        (osChdir sys w.cwd (doArticleBody sys out inp tmpl w1).2.1).1
        (doArticle sys out inp tmpl w).1.err) ∧
    (∀ (out : String) (doc : Doc) (tmpl : Template) (w : World F) (fs1 : F),
      sys.create w out = (none, fs1) →
      combines (sys.docRender ⟨w.cwd, fs1⟩ out doc tmpl).1
        (sys.close ⟨w.cwd, (sys.docRender ⟨w.cwd, fs1⟩ out doc tmpl).2⟩ out).1
        (render sys out doc tmpl w).1) ∧
    (∀ (out : String) (sections : List metadata) (tmpl : Template) (w : World F) (fs1 : F),
      sys.create w out = (none, fs1) →
      combines (sys.executeTemplate ⟨w.cwd, fs1⟩ out "index" sections tmpl).1
        (sys.close ⟨w.cwd, (sys.executeTemplate ⟨w.cwd, fs1⟩ out "index" sections tmpl).2⟩
          out).1
        (renderIndex sys out sections tmpl w).1) := by
  refine ⟨?_, ?_, ?_⟩
  · intro out inp tmpl w w1 he
    rw [doArticle_entered sys out inp tmpl w w1 he]
    exact combines_deferChdir _ _ _
  · intro out doc tmpl w fs1 hc
    simp only [render, hc]
    exact combines_deferClose _ _ _
  · intro out sections tmpl w fs1 hc
    simp only [renderIndex, hc]
    exact combines_deferClose _ _ _

/-- Sample evaluation for C8: rendering `foo` fails and closing its file fails too; the
error `doArticle` returns wraps the render error and its message names both failures. -/
theorem C8_witness :
    (doArticle (sampleSys (sampleManifest []) { renderFails := some "Foo", closeFails := true })
        "/site/out" "foo" ⟨[]⟩ sampleWorld).1.err =
      some (.wrap ("template: article: execution failed; and couldn't close " ++
          "/site/out/articles/foo.html: close /site/out/articles/foo.html: input/output error")
        (.leaf "template: article: execution failed")) ∧
    combines (some (.leaf "template: article: execution failed"))
      (some (.leaf "close /site/out/articles/foo.html: input/output error"))
      (render (sampleSys (sampleManifest []) { renderFails := some "Foo", closeFails := true })
        "/site/out/articles/foo.html" ⟨"Foo", "About foo", ⟨100⟩, "foo body"⟩ ⟨[]⟩
        ⟨"/site/foo", []⟩).1 :=
  ⟨by decide,
   (C8_release_errors
      (sampleSys (sampleManifest []) { renderFails := some "Foo", closeFails := true })).2.1
      "/site/out/articles/foo.html" ⟨"Foo", "About foo", ⟨100⟩, "foo body"⟩ ⟨[]⟩
      ⟨"/site/foo", []⟩ [("/site/out/articles/foo.html", "")] (by decide)⟩


/-! ## The working directory -/

theorem render_cwd (sys : Sys F) (out : String) (doc : Doc) (tmpl : Template) (w : World F) :
    (render sys out doc tmpl w).2.1.cwd = w.cwd := by
  unfold render
  rcases hc : sys.create w out with ⟨_ | e, fs1⟩ <;> simp

theorem doArticleBody_cwd (sys : Sys F) (out inp : String) (tmpl : Template) (w : World F) :
    (doArticleBody sys out inp tmpl w).2.1.cwd = w.cwd := by
  unfold doArticleBody
  rcases hp : parse sys inp w with ⟨e | doc, ev⟩
  · simp
  · simp [render_cwd]

theorem osChdir_abs (sys : Sys F) (dir : String) (w : World F)
    (habs : Filepath.IsAbs dir = true) (h : (osChdir sys dir w).1 = none) :
    (osChdir sys dir w).2 = { w with cwd := dir } := by
  unfold osChdir at h ⊢
  cases hce : sys.chdirErr w dir with
  | none => simp [habs]
  | some e => simp [hce] at h

theorem osChdir_fs (sys : Sys F) (dir : String) (w : World F) :
    (osChdir sys dir w).2.fs = w.fs := by
  unfold osChdir
  cases hce : sys.chdirErr w dir <;> simp

/-- C7: when `doArticle` has changed into the article directory, the last call it makes,
on every path, is the change back to the working directory it started in, and when
that call succeeds the working directory after `doArticle` is the one before it; when
the directory was not entered the world is left as it was. -/
theorem C7_cwd_restored (sys : Sys F) (out inp : String) (tmpl : Template) (w : World F)
    (habs : Filepath.IsAbs w.cwd = true) :
    (∀ w1, entered sys inp w = some w1 →
      (doArticle sys out inp tmpl w).2.2.getLast? = some (Event.Chdir w.cwd) ∧
      (restoredOk sys out inp tmpl w = true →
        (doArticle sys out inp tmpl w).2.1.cwd = w.cwd)) ∧
    (entered sys inp w = none → (doArticle sys out inp tmpl w).2.1 = w) ∧
    (∀ e, (osChdir sys inp w).1 = some e → (doArticle sys out inp tmpl w).2.1 = w) := by
  refine ⟨?_, ?_, ?_⟩
  · intro w1 he
    rw [doArticle_entered sys out inp tmpl w w1 he]
    refine ⟨List.getLast?_concat _, ?_⟩
    intro hr
    simp only [restoredOk, he, beq_iff_eq] at hr
    simp only
    rw [osChdir_abs sys w.cwd _ habs hr]
  · intro he
    exact (doArticle_not_entered sys out inp tmpl w he).2
  · intro e hc
    apply (doArticle_not_entered sys out inp tmpl w _).2
    unfold entered
    rcases hg : osGetwd sys w with e' | cwd
    · rfl
    · rcases hc' : osChdir sys inp w with ⟨_ | e', w2⟩
      · simp [hc'] at hc
      · rfl

/-- Sample evaluation for C7: rendering `foo` fails after the directory was entered; the
restore is the last call and the working directory is `/site` again. -/
theorem C7_witness :
    Filepath.IsAbs sampleWorld.cwd = true ∧
    entered (sampleSys (sampleManifest []) { renderFails := some "Foo" }) "foo" sampleWorld =
      some ⟨"/site/foo", []⟩ ∧
    (doArticle (sampleSys (sampleManifest []) { renderFails := some "Foo" }) "/site/out" "foo"
      ⟨[]⟩ sampleWorld).2.2.getLast? = some (Event.Chdir "/site") ∧
    (doArticle (sampleSys (sampleManifest []) { renderFails := some "Foo" }) "/site/out" "foo"
      ⟨[]⟩ sampleWorld).2.1.cwd = "/site" :=
  ⟨by decide, by decide,
   ((C7_cwd_restored (sampleSys (sampleManifest []) { renderFails := some "Foo" }) "/site/out"
      "foo" ⟨[]⟩ sampleWorld (by decide)).1 ⟨"/site/foo", []⟩ (by decide)).1,
   ((C7_cwd_restored (sampleSys (sampleManifest []) { renderFails := some "Foo" }) "/site/out"
      "foo" ⟨[]⟩ sampleWorld (by decide)).1 ⟨"/site/foo", []⟩ (by decide)).2 (by decide)⟩


/-! ## Index, feed and exit status -/

theorem renderIndex_events (sys : Sys F) (out : String) (sections : List metadata)
    (tmpl : Template) (w : World F) :
    ∃ rest, (renderIndex sys out sections tmpl w).2.2 = Event.Create out :: rest := by
  unfold renderIndex
  rcases hc : sys.create w out with ⟨_ | e, fs1⟩ <;> simp

theorem finish_events (sys : Sys F) (outdir : String) (tmpl : Template) (feed : Feed)
    (meta : List metadata) (w : World F) :
    ∃ ix atomLog atom writeLog,
      (finish sys outdir tmpl feed meta w).events =
        (Event.Println "index" :: Event.Create (Filepath.Join [outdir, "index.html"]) :: ix) ++
        (Event.ToAtom feed :: atomLog) ++
        (Event.WriteFile (Filepath.Join [outdir, "weblog.atom"]) atom :: writeLog) ++
        [Event.Println "done"] ∧
      (match sys.toAtom feed with
        | .ok a => atom = a
        | .error _ => atom = "") := by
  obtain ⟨rest, hrest⟩ := renderIndex_events sys (Filepath.Join [outdir, "index.html"]) meta tmpl w
  refine ⟨rest ++ (match (renderIndex sys (Filepath.Join [outdir, "index.html"]) meta tmpl w).1 with
      | some err => [Event.Println err.Error]
      | none => []),
    (match sys.toAtom feed with
      | .error err => [Event.Println ("generating atom feed: " ++ err.Error ++ " (continuing)")]
      | .ok _ => []),
    (match sys.toAtom feed with
      | .error _ => ""
      | .ok atom => atom),
    (match (sys.writeFile (renderIndex sys (Filepath.Join [outdir, "index.html"]) meta tmpl w).2.1
        (Filepath.Join [outdir, "weblog.atom"])
        (match sys.toAtom feed with
          | .error _ => ""
          | .ok atom => atom)).1 with
      | some err => [Event.Println ("writing atom feed: " ++ err.Error ++ " (continuing)")]
      | none => []), ?_, ?_⟩
  · simp only [finish, hrest]
    simp only [List.append_assoc, List.cons_append, List.nil_append, List.singleton_append]
  · cases sys.toAtom feed <;> rfl

/-- C5 (what the code does): when `feed.ToAtom()` fails, the run still calls
`os.WriteFile` on `weblog.atom`, with empty content, and the file system after the run is
the one that call leaves. -/
theorem C5_feed_file_written (sys : Sys F) (outdir : String) (tmpl : Template) (feed : Feed)
    (meta : List metadata) (w : World F) (e : GoError) (h : sys.toAtom feed = .error e) :
    Event.WriteFile (Filepath.Join [outdir, "weblog.atom"]) "" ∈
      (finish sys outdir tmpl feed meta w).events ∧
    (finish sys outdir tmpl feed meta w).world.fs =
      (sys.writeFile (renderIndex sys (Filepath.Join [outdir, "index.html"]) meta tmpl w).2.1
        (Filepath.Join [outdir, "weblog.atom"]) "").2 := by
  constructor
  · simp only [finish, h]
    simp
  · simp only [finish, h]

/-- Sample evaluation for C5: the feed serializer fails, and the run of `main` writes an
empty `/site/out/weblog.atom`. -/
theorem C5_witness :
    (sampleSys (sampleManifest [⟨"One", ["foo"]⟩]) { atomFails := true }).toAtom
      ⟨"Weblog", ⟨"https://example.com/blog"⟩, "A weblog", ⟨"A. Author", "a@example.com"⟩,
        ⟨1000⟩, []⟩ = .error (.leaf "xml: unsupported type") ∧
    Event.WriteFile "/site/out/weblog.atom" "" ∈
      (finish (sampleSys (sampleManifest [⟨"One", ["foo"]⟩]) { atomFails := true }) "/site/out"
        ⟨[]⟩ ⟨"Weblog", ⟨"https://example.com/blog"⟩, "A weblog",
          ⟨"A. Author", "a@example.com"⟩, ⟨1000⟩, []⟩ [] sampleWorld).events ∧
    (main (sampleSys (sampleManifest [⟨"One", ["foo"]⟩]) { atomFails := true }) "out"
        "site.json" sampleWorld).world.fs.head? = some ("/site/out/weblog.atom", "") ∧
    Event.WriteFile "/site/out/weblog.atom" "" ∈
      (main (sampleSys (sampleManifest [⟨"One", ["foo"]⟩]) { atomFails := true }) "out"
        "site.json" sampleWorld).events :=
  ⟨rfl,
   (C5_feed_file_written (sampleSys (sampleManifest [⟨"One", ["foo"]⟩]) { atomFails := true })
      "/site/out" ⟨[]⟩ ⟨"Weblog", ⟨"https://example.com/blog"⟩, "A weblog",
        ⟨"A. Author", "a@example.com"⟩, ⟨1000⟩, []⟩ [] sampleWorld
      (.leaf "xml: unsupported type") rfl).1,
   by decide, by decide⟩

/-- C6: once the flags are present, the manifest is read and unmarshalled, the templates
are parsed and the articles directory is created, the run, whatever the later calls
return, attempts the index render, then serializes the feed and writes it, logs `done`
last, and ends with exit status zero. -/
theorem C6_run_completes (sys : Sys F) (outdir mf : String) (w : World F)
    (absdir : String) (ev0 : List Event) (s : String) (m : manifest) (tmpl : Template)
    (fs1 : F)
    (hout : outdir ≠ "") (hmf : mf ≠ "")
    (habs : Abs sys outdir w = (.ok absdir, ev0))
    (hread : sys.readFile w mf = .ok s)
    (hjson : sys.unmarshal s = .ok m)
    (htmpl : sys.parseFS = .ok tmpl)
    (hmk : sys.mkdirAll w (Filepath.Join [absdir, "articles"]) = (none, fs1)) :
    (main sys outdir mf w).exit = 0 ∧
    ∃ pre ix atomLog atom writeLog,
      (main sys outdir mf w).events =
        pre ++
        (Event.Println "index" :: Event.Create (Filepath.Join [absdir, "index.html"]) :: ix) ++
        (Event.ToAtom ⟨m.Title, ⟨m.Href⟩, m.Description, ⟨m.Author, m.Email⟩,
            sys.now ⟨w.cwd, fs1⟩, (main sys outdir mf w).Items⟩ :: atomLog) ++
        (Event.WriteFile (Filepath.Join [absdir, "weblog.atom"]) atom :: writeLog) ++
        [Event.Println "done"] := by
  have hmain : main sys outdir mf w =
      { build sys m absdir tmpl ⟨w.cwd, fs1⟩ with
        events := (ev0 ++ [Event.ReadFile mf, Event.Unmarshal s, Event.ParseFS,
            Event.MkdirAll (Filepath.Join [absdir, "articles"])]) ++
          (build sys m absdir tmpl ⟨w.cwd, fs1⟩).events } := by
    simp only [main, hout, hmf, habs, hread, hjson, htmpl, hmk, if_false]
  rw [hmain]
  refine ⟨rfl, ?_⟩
  obtain ⟨ix, atomLog, atom, writeLog, hev, _⟩ := finish_events sys absdir tmpl
    { Title := m.Title, Link := ⟨m.Href⟩, Description := m.Description,
      Author := ⟨m.Author, m.Email⟩, Created := sys.now ⟨w.cwd, fs1⟩,
      Items := (sectionLoop sys m absdir tmpl m.Sections [] [] ⟨w.cwd, fs1⟩).Items }
    (sectionLoop sys m absdir tmpl m.Sections [] [] ⟨w.cwd, fs1⟩).meta
    (sectionLoop sys m absdir tmpl m.Sections [] [] ⟨w.cwd, fs1⟩).world
  refine ⟨(ev0 ++ [Event.ReadFile mf, Event.Unmarshal s, Event.ParseFS,
      Event.MkdirAll (Filepath.Join [absdir, "articles"])]) ++
      (sectionLoop sys m absdir tmpl m.Sections [] [] ⟨w.cwd, fs1⟩).events,
    ix, atomLog, atom, writeLog, ?_⟩
  simp only [build]
  rw [hev]
  simp only [finish, List.append_assoc]

/-- Sample evaluation for C6: an article that does not parse, a failing index render, a
failing feed serialization and a failing feed write still end with status zero. -/
theorem C6_witness :
    (main (sampleSys (sampleManifest [⟨"One", ["bad"]⟩])
        { indexFails := true, atomFails := true, writeFails := true })
      "out" "site.json" sampleWorld).exit = 0 ∧
    (main (sampleSys (sampleManifest [⟨"One", ["bad"]⟩])
        { indexFails := true, atomFails := true, writeFails := true })
      "out" "site.json" sampleWorld).events.getLast? = some (Event.Println "done") :=
  ⟨(C6_run_completes (sampleSys (sampleManifest [⟨"One", ["bad"]⟩])
        { indexFails := true, atomFails := true, writeFails := true })
      "out" "site.json" sampleWorld "/site/out" [Event.Getwd] "site.json"
      (sampleManifest [⟨"One", ["bad"]⟩]) ⟨["actions", "head", "index", "article", "footer"]⟩
      [] (by decide) (by decide) rfl rfl rfl rfl rfl).1,
   by decide⟩

/-! ## Output URLs -/

theorem dropWhile_length_le (p : Char → Bool) (l : List Char) :
    (l.dropWhile p).length ≤ l.length := by
  induction l with
  | nil => simp
  | cons c tl ih =>
    simp only [List.dropWhile]
    split
    · exact Nat.le_succ_of_le ih
    · exact Nat.le_refl _

open Filepath in
theorem cleanLoop_cons (rooted : Bool) (fuel : Nat) (c : Char) (tl out : List Char)
    (dotdot : Nat) :
    cleanLoop rooted (fuel + 1) (c :: tl) out dotdot =
      if IsPathSeparator c then cleanLoop rooted fuel tl out dotdot
      else if c = '.' ∧ (tl = [] ∨ tl.head?.map IsPathSeparator = some true) then
        cleanLoop rooted fuel tl out dotdot
      else if c = '.' ∧ tl.head? = some '.' ∧
          (tl.tail = [] ∨ tl.tail.head?.map IsPathSeparator = some true) then
        if out.length > dotdot then
          cleanLoop rooted fuel tl.tail (dropElem dotdot out) dotdot
        else if ¬ rooted then
          cleanLoop rooted fuel tl.tail ('.' :: '.' :: (if out.length > 0 then '/' :: out else out))
            ((if out.length > 0 then '/' :: out else out).length + 2)
        else
          cleanLoop rooted fuel tl.tail out dotdot
      else
        cleanLoop rooted fuel ((c :: tl).dropWhile (fun x => ! IsPathSeparator x))
          (((c :: tl).takeWhile (fun x => ! IsPathSeparator x)).reverse ++
            (if (rooted ∧ out.length ≠ 1) ∨ (¬ rooted ∧ out.length ≠ 0) then '/' :: out
              else out)) dotdot := by
  rw [cleanLoop]

open Filepath in
/-- The loop of `Clean` never runs out of fuel: with as many iterations as bytes left to
read, one more iteration changes nothing. -/
theorem cleanLoop_fuel (rooted : Bool) (fuel : Nat) :
    ∀ (path out : List Char) (dotdot : Nat), path.length ≤ fuel →
      cleanLoop rooted (fuel + 1) path out dotdot = cleanLoop rooted fuel path out dotdot := by
  induction fuel with
  | zero =>
    intro path out dotdot h
    cases path with
    | nil => simp [cleanLoop]
    | cons c tl => simp at h
  | succ n ih =>
    intro path out dotdot h
    cases path with
    | nil => simp [cleanLoop]
    | cons c tl =>
      have htl : tl.length ≤ n := by simpa using h
      have htt : tl.tail.length ≤ n := by
        have := List.length_tail tl
        omega
      rw [cleanLoop_cons, cleanLoop_cons]
      split
      · exact ih _ _ _ htl
      · split
        · exact ih _ _ _ htl
        · split
          · split
            · exact ih _ _ _ htt
            · split
              · exact ih _ _ _ htt
              · exact ih _ _ _ htt
          · rename_i hc _ _
            apply ih
            have hc' : (! IsPathSeparator c) = true := by simpa using hc
            simp only [List.dropWhile, hc']
            exact Nat.le_trans (dropWhile_length_le _ tl) htl

open Filepath in
theorem cleanLoop_nil (rooted : Bool) (fuel : Nat) (out : List Char) (dotdot : Nat) :
    cleanLoop rooted fuel [] out dotdot = out := by
  cases fuel <;> simp [cleanLoop]

open Filepath in
theorem cleanLoop_sep (rooted : Bool) (fuel : Nat) (rest out : List Char) (dotdot : Nat) :
    cleanLoop rooted (fuel + 1) ('/' :: rest) out dotdot = cleanLoop rooted fuel rest out dotdot := by
  simp [cleanLoop, IsPathSeparator]

theorem takeWhile_elem (e rest : List Char) (he : '/' ∉ e)
    (hrest : rest = [] ∨ ∃ r, rest = '/' :: r) :
    (e ++ rest).takeWhile (fun x => ! Filepath.IsPathSeparator x) = e ∧
    (e ++ rest).dropWhile (fun x => ! Filepath.IsPathSeparator x) = rest := by
  induction e with
  | nil =>
    rcases hrest with h | ⟨r, h⟩ <;> subst h <;> simp [Filepath.IsPathSeparator]
  | cons c tl ih =>
    have hc : c ≠ '/' := fun h => he (by simp [h])
    have htl : '/' ∉ tl := fun h => he (by simp [h])
    obtain ⟨h1, h2⟩ := ih htl
    simp only [Filepath.IsPathSeparator] at h1 h2
    simp [Filepath.IsPathSeparator, hc, h1, h2]

open Filepath in
theorem cleanLoop_elem (fuel : Nat) (e rest out : List Char) (he : '/' ∉ e)
    (hreal : realElem e = true) (hrest : rest = [] ∨ ∃ r, rest = '/' :: r) :
    cleanLoop false (fuel + 1) (e ++ rest) out 0 =
      cleanLoop false fuel rest (e.reverse ++ (if out.length ≠ 0 then '/' :: out else out)) 0 := by
  obtain ⟨ht, hd⟩ := takeWhile_elem e rest he hrest
  simp only [realElem, Bool.and_eq_true, bne_iff_ne, ne_eq] at hreal
  obtain ⟨⟨hne, hdot⟩, hdotdot⟩ := hreal
  cases e with
  | nil => exact absurd rfl hne
  | cons c tl =>
    have hc : c ≠ '/' := fun h => he (by simp [h])
    have htl : '/' ∉ tl := fun h => he (by simp [h])
    have h1 : ¬ (c = '.' ∧ (tl ++ rest = [] ∨
        (tl ++ rest).head?.map IsPathSeparator = some true)) := by
      rintro ⟨hcd, h⟩
      cases tl with
      | nil => exact hdot (by rw [hcd])
      | cons d tl' =>
        have hd' : d ≠ '/' := fun h => htl (by simp [h])
        simp [IsPathSeparator, hd'] at h
    have h2 : ¬ (c = '.' ∧ (tl ++ rest).head? = some '.' ∧ ((tl ++ rest).tail = [] ∨
        (tl ++ rest).tail.head?.map IsPathSeparator = some true)) := by
      rintro ⟨hcd, hh, h⟩
      cases tl with
      | nil =>
        rcases hrest with hr | ⟨r, hr⟩ <;> subst hr <;> simp at hh
      | cons d tl' =>
        simp at hh
        cases tl' with
        | nil => exact hdotdot (by rw [hcd, hh])
        | cons d' tl'' =>
          have hd' : d' ≠ '/' := fun h => htl (by simp [h])
          simp [IsPathSeparator, hd'] at h
    rw [List.cons_append] at ht hd ⊢
    rw [cleanLoop]
    simp only [IsPathSeparator, beq_iff_eq, hc, if_false, h1, h2]
    simp only [IsPathSeparator] at ht hd
    simp only [ht, hd]
    simp


theorem intercalate_cons_cons (e e2 : List Char) (es : List (List Char)) :
    ['/'].intercalate (e :: e2 :: es) = e ++ '/' :: ['/'].intercalate (e2 :: es) := by
  simp [List.intercalate, List.intersperse]

theorem intercalate_single (e : List Char) : ['/'].intercalate [e] = e := by
  simp [List.intercalate, List.intersperse]

theorem realElem_length (e : List Char) (h : realElem e = true) : 1 ≤ e.length := by
  cases e with
  | nil => simp [realElem] at h
  | cons c tl => simp

open Filepath in
/-- On a path made of real elements separated by single slashes the loop of `Clean` copies
the path, after a slash when something was written before. -/
theorem cleanLoop_plain (es : List (List Char)) :
    es ≠ [] → (∀ e ∈ es, '/' ∉ e ∧ realElem e = true) →
    ∀ (out : List Char) (fuel : Nat), (['/'].intercalate es).length ≤ fuel →
      cleanLoop false fuel (['/'].intercalate es) out 0 =
        (['/'].intercalate es).reverse ++ (if out.length ≠ 0 then '/' :: out else out) := by
  induction es with
  | nil => intro h; exact absurd rfl h
  | cons e rest ih =>
    intro _ hall out fuel hfuel
    have he := hall e (by simp)
    have hlen := realElem_length e he.2
    cases rest with
    | nil =>
      rw [intercalate_single] at hfuel ⊢
      obtain ⟨f, rfl⟩ : ∃ f, fuel = f + 1 := ⟨fuel - 1, by omega⟩
      have := cleanLoop_elem f e [] out he.1 he.2 (Or.inl rfl)
      rw [List.append_nil] at this
      rw [this, cleanLoop_nil]
    | cons e2 es =>
      rw [intercalate_cons_cons] at hfuel ⊢
      simp only [List.length_append, List.length_cons] at hfuel
      obtain ⟨f, rfl⟩ : ∃ f, fuel = f + 2 := ⟨fuel - 2, by omega⟩
      rw [cleanLoop_elem (f + 1) e _ out he.1 he.2 (Or.inr ⟨_, rfl⟩), cleanLoop_sep]
      rw [ih (by simp) (fun x hx => hall x (by simp [List.mem_cons] at hx ⊢; exact Or.inr hx))
        _ f (by omega)]
      have hne : e ≠ [] := fun h => by simp [h] at hlen
      simp [hne]

theorem splitOn_no_sep (l : List Char) : ∀ e ∈ l.splitOn '/', '/' ∉ e := by
  induction l with
  | nil => simp [List.splitOn, List.splitOnP, List.splitOnP.go]
  | cons c tl ih =>
    intro e he
    simp only [List.splitOn] at ih he
    rw [List.splitOnP_cons] at he
    split at he
    · simp only [List.mem_cons] at he
      rcases he with h | h
      · subst h; simp
      · exact ih e h
    · rename_i hc
      cases hs : List.splitOnP (fun x => x == '/') tl with
      | nil => simp [hs, List.modifyHead] at he
      | cons x xs =>
        rw [hs] at he ih
        simp only [List.modifyHead, List.mem_cons] at he
        rcases he with h | h
        · subst h
          have hx := ih x (by simp)
          simp only [List.mem_cons, not_or]
          refine ⟨fun h => hc (by simp [← h]), hx⟩
        · exact ih e (by simp [h])

theorem splitOn_append_plain (s : List Char) (hs : '/' ∉ s) (l : List Char) :
    (l ++ s).splitOn '/' =
      (l.splitOn '/').dropLast ++ [(l.splitOn '/').getLast?.getD [] ++ s] := by
  induction l with
  | nil =>
    have : s.splitOn '/' = [s] := by
      apply List.splitOnP_eq_single
      intro x hx h
      simp at h
      exact hs (h ▸ hx)
    simp only [List.splitOn] at this
    simp [this, List.splitOn]
  | cons c tl ih =>
    simp only [List.splitOn, List.cons_append] at ih ⊢
    rw [List.splitOnP_cons, List.splitOnP_cons, ih]
    have hne := List.splitOnP_ne_nil (fun x => x == '/') tl
    cases hx : List.splitOnP (fun x => x == '/') tl with
    | nil => exact absurd hx hne
    | cons x xs =>
      split
      · cases xs <;> simp
      · cases xs <;> simp [List.modifyHead]


theorem intercalate_head (es : List (List Char)) (hne : es ≠ [])
    (hall : ∀ e ∈ es, '/' ∉ e ∧ realElem e = true) :
    ∃ c tl, c ≠ '/' ∧ ['/'].intercalate es = c :: tl := by
  cases es with
  | nil => exact absurd rfl hne
  | cons e rest =>
    have he := hall e (by simp)
    cases e with
    | nil => simp [realElem] at he
    | cons c tl =>
      refine ⟨c, ?_, fun h => he.1 (by simp [h]), ?_⟩
      · exact tl ++ (match rest with
          | [] => []
          | e2 :: es => '/' :: ['/'].intercalate (e2 :: es))
      · cases rest with
        | nil => simp [intercalate_single]
        | cons e2 es => simp [intercalate_cons_cons]

/-- A path made of real elements separated by single slashes is left as it is by
`filepath.Clean`. -/
theorem Clean_plain (p : String) (es : List (List Char)) (hne : es ≠ [])
    (hall : ∀ e ∈ es, '/' ∉ e ∧ realElem e = true)
    (hp : p.toList = ['/'].intercalate es) : Filepath.Clean p = p := by
  obtain ⟨c, tl, hc, hct⟩ := intercalate_head es hne hall
  have hloop := cleanLoop_plain es hne hall [] p.toList.length (by rw [hp])
  rw [← hp] at hloop hct
  have hpne : p ≠ "" := by
    intro h
    rw [h] at hct
    simp at hct
  unfold Filepath.Clean
  simp only [hpne, if_false]
  have hlen : p.length = p.toList.length := rfl
  have hroot : ¬ (p.toList.head?.map Filepath.IsPathSeparator = some true) := by
    rw [hct]
    simp [Filepath.IsPathSeparator, hc]
  simp only [hroot, if_false, hlen, hloop]
  simp only [List.length_nil, ne_eq, not_true_eq_false, if_false, List.append_nil]
  have hrev : p.toList.reverse ≠ [] := by
    rw [hct]; simp
  simp only [hrev, if_false, List.reverse_reverse]
  rfl

theorem realElem_of_length (e : List Char) (h : 3 ≤ e.length) : realElem e = true := by
  match e, h with
  | _ :: _ :: _ :: _, _ => simp [realElem]

/-- For a plain id, `filepath.Join("articles", id + ".html")` is the plain concatenation. -/
theorem Join_articles (id : String) (h : plainId id = true) :
    Filepath.Join ["articles", id ++ ".html"] = "articles/" ++ id ++ ".html" := by
  have hJ : Filepath.Join ["articles", id ++ ".html"] =
      Filepath.Clean ("articles/" ++ id ++ ".html") := by
    have h0 : ("articles" == "") = false := by decide
    simp only [Filepath.Join, List.dropWhile, h0]
    simp only [String.intercalate, String.intercalate.go]
    congr 1
  rw [hJ]
  have hs : '/' ∉ ".html".toList := by decide
  have hsplit := splitOn_append_plain ".html".toList hs id.toList
  have hX := splitOn_no_sep (id.toList ++ ".html".toList)
  have hint : ['/'].intercalate ((id.toList ++ ".html".toList).splitOn '/') =
      id.toList ++ ".html".toList := List.intercalate_splitOn _ '/'
  have hXne : (id.toList ++ ".html".toList).splitOn '/' ≠ [] := by
    rw [hsplit]; simp
  apply Clean_plain _ ("articles".toList :: (id.toList ++ ".html".toList).splitOn '/')
    (by simp)
  · intro e he
    simp only [List.mem_cons] at he
    rcases he with he | he
    · subst he
      exact ⟨by decide, by decide⟩
    · refine ⟨hX e he, ?_⟩
      rw [hsplit] at he
      simp only [List.mem_append, List.mem_singleton] at he
      rcases he with he | he
      · simp only [plainId, List.all_eq_true] at h
        exact h e he
      · subst he
        apply realElem_of_length
        simp
  · cases hx : (id.toList ++ ".html".toList).splitOn '/' with
    | nil => exact absurd hx hXne
    | cons x xs =>
      rw [intercalate_cons_cons, ← hx, hint]
      simp [String.toList, String.data_append]


/-- C9 (amended): when `doArticle` succeeds the URL it returns is
`filepath.ToSlash(filepath.Join("articles", id + ".html"))`, which is `articles/` followed
by the id followed by `.html` whenever no path element of the id before the last is
empty, `.` or `..`; id `foo` gives `articles/foo.html`. -/
theorem C9_output_url (sys : Sys F) (out id : String) (tmpl : Template) (w : World F)
    (h : (doArticle sys out id tmpl w).1.err = none) :
    (doArticle sys out id tmpl w).1.url =
        Filepath.ToSlash (Filepath.Join ["articles", id ++ ".html"]) ∧
    (plainId id = true →
      (doArticle sys out id tmpl w).1.url = "articles/" ++ id ++ ".html") ∧
    (id = "foo" → (doArticle sys out id tmpl w).1.url = "articles/foo.html") := by
  obtain ⟨doc, _, _, hurl⟩ := doArticle_doc sys out id tmpl w h
  refine ⟨hurl, ?_, ?_⟩
  · intro hp
    rw [hurl, Filepath.ToSlash, Join_articles id hp]
  · intro hid
    subst hid
    rw [hurl]
    decide

/-- C9 (as stated, refuted): in the sample site `doArticle` succeeds on the id `./foo` and
returns the URL `articles/foo.html`, which is not `articles/./foo.html`. -/
theorem C9_counterexample :
    (doArticle (sampleSys (sampleManifest []) {}) "/site/out" "./foo" ⟨[]⟩ sampleWorld).1.err =
      none ∧
    (doArticle (sampleSys (sampleManifest []) {}) "/site/out" "./foo" ⟨[]⟩ sampleWorld).1.url =
      "articles/foo.html" ∧
    (doArticle (sampleSys (sampleManifest []) {}) "/site/out" "./foo" ⟨[]⟩ sampleWorld).1.url ≠
      "articles/" ++ "./foo" ++ ".html" := by
  decide

/-- Sample evaluation for C9: `doArticle` succeeds on `foo` and returns `articles/foo.html`. -/
theorem C9_witness :
    (doArticle (sampleSys (sampleManifest []) {}) "/site/out" "foo" ⟨[]⟩ sampleWorld).1.err =
      none ∧
    plainId "foo" = true ∧
    (doArticle (sampleSys (sampleManifest []) {}) "/site/out" "foo" ⟨[]⟩ sampleWorld).1.url =
      "articles/" ++ "foo" ++ ".html" :=
  ⟨by decide, by decide,
   (C9_output_url (sampleSys (sampleManifest []) {}) "/site/out" "foo" ⟨[]⟩ sampleWorld
      (by decide)).2.1 (by decide)⟩

theorem append_html_injective (a b : String)
    (h : "articles/" ++ a ++ ".html" = "articles/" ++ b ++ ".html") : a = b := by
  have hd := congrArg String.data h
  simp only [String.data_append] at hd
  have h1 := List.append_cancel_right hd
  have h2 := List.append_cancel_left h1
  exact String.ext h2

/-- C10 (amended): two distinct article ids neither of which has an empty, `.` or `..`
path element before its last get distinct output URLs. -/
theorem C10_urls_distinct (a b : String) (ha : plainId a = true) (hb : plainId b = true)
    (hab : a ≠ b) :
    Filepath.ToSlash (Filepath.Join ["articles", a ++ ".html"]) ≠
      Filepath.ToSlash (Filepath.Join ["articles", b ++ ".html"]) ∧
    (∀ (sys : Sys F) (out : String) (tmpl : Template) (w w' : World F),
      (doArticle sys out a tmpl w).1.err = none → (doArticle sys out b tmpl w').1.err = none →
      (doArticle sys out a tmpl w).1.url ≠ (doArticle sys out b tmpl w').1.url) := by
  have key : Filepath.ToSlash (Filepath.Join ["articles", a ++ ".html"]) ≠
      Filepath.ToSlash (Filepath.Join ["articles", b ++ ".html"]) := by
    rw [Filepath.ToSlash, Filepath.ToSlash, Join_articles a ha, Join_articles b hb]
    exact fun h => hab (append_html_injective a b h)
  refine ⟨key, ?_⟩
  intro sys out tmpl w w' h1 h2
  obtain ⟨_, _, _, hu1⟩ := doArticle_doc sys out a tmpl w h1
  obtain ⟨_, _, _, hu2⟩ := doArticle_doc sys out b tmpl w' h2
  rw [hu1, hu2]
  exact key

/-- C10 (as stated, refuted): the distinct ids `foo` and `./foo` get the same output URL. -/
theorem C10_counterexample :
    "foo" ≠ "./foo" ∧
    Filepath.ToSlash (Filepath.Join ["articles", "foo" ++ ".html"]) =
      Filepath.ToSlash (Filepath.Join ["articles", "./foo" ++ ".html"]) := by
  decide

/-- Sample evaluation for C10: the ids `foo` and `bar`. -/
theorem C10_witness :
    plainId "foo" = true ∧ plainId "bar" = true ∧
    Filepath.ToSlash (Filepath.Join ["articles", "foo" ++ ".html"]) ≠
      Filepath.ToSlash (Filepath.Join ["articles", "bar" ++ ".html"]) :=
  ⟨by decide, by decide,
   (C10_urls_distinct (F := Files) "foo" "bar" (by decide) (by decide) (by decide)).1⟩

/-! ## Isolation of a failing article -/

theorem articleRuns_append (sys : Sys F) (outdir : String) (tmpl : Template)
    (xs ys : List String) :
    ∀ w : World F,
      articleRuns sys outdir tmpl (xs ++ ys) w =
        ((articleRuns sys outdir tmpl xs w).1 ++
            (articleRuns sys outdir tmpl ys (articleRuns sys outdir tmpl xs w).2).1,
          (articleRuns sys outdir tmpl ys (articleRuns sys outdir tmpl xs w).2).2) := by
  induction xs with
  | nil => intro w; simp [articleRuns]
  | cons x rest ih => intro w; simp [articleRuns, ih]

theorem sectionRuns_append (sys : Sys F) (outdir : String) (tmpl : Template)
    (xs ys : List ManifestSection) :
    ∀ w : World F,
      sectionRuns sys outdir tmpl (xs ++ ys) w =
        sectionRuns sys outdir tmpl xs w ++
          sectionRuns sys outdir tmpl ys (worldAfterSections sys outdir tmpl xs w) := by
  induction xs with
  | nil => intro w; simp [sectionRuns, worldAfterSections]
  | cons x rest ih => intro w; simp [sectionRuns, worldAfterSections, ih]

theorem sectionLoop_world (sys : Sys F) (mf : manifest) (outdir : String) (tmpl : Template)
    (secs : List ManifestSection) :
    ∀ (meta : List metadata) (items : List Item) (w : World F),
      (sectionLoop sys mf outdir tmpl secs meta items w).world =
        worldAfterSections sys outdir tmpl secs w := by
  induction secs with
  | nil => intro meta items w; rfl
  | cons sec rest ih =>
    intro meta items w
    simp only [sectionLoop, worldAfterSections, ih,
      (articleLoop_spec sys mf outdir tmpl sec.Section sec.Articles [] items w).2.2]

/-- An article that fails to parse and after which the working directory is restored
leaves the world as `doArticle` found it, and `doArticle` returns an error. -/
theorem doArticle_parseFails (sys : Sys F) (out inp : String) (tmpl : Template) (w : World F)
    (habs : Filepath.IsAbs w.cwd = true) (hp : parseFails sys inp w = true)
    (hr : restoredOk sys out inp tmpl w = true) :
    (doArticle sys out inp tmpl w).2.1 = w ∧ (doArticle sys out inp tmpl w).1.err ≠ none := by
  cases he : entered sys inp w with
  | none => simp [parseFails, he] at hp
  | some w1 =>
    simp only [parseFails, he] at hp
    simp only [restoredOk, he, beq_iff_eq] at hr
    rw [doArticle_entered sys out inp tmpl w w1 he]
    rcases hpe : parse sys inp w1 with ⟨e | doc, ev⟩
    · have hb : doArticleBody sys out inp tmpl w1 = (⟨none, "", Time.zero, some e⟩, w1, ev) := by
        simp [doArticleBody, hpe]
      rw [hb] at hr ⊢
      simp only at hr ⊢
      refine ⟨?_, ?_⟩
      · rw [osChdir_abs sys w.cwd w1 habs hr]
        have hfs : w1.fs = w.fs := by
          have := osChdir_fs sys inp w
          rw [(entered_some sys inp w w1 he).2] at this
          exact this
        cases w
        cases w1
        simp only at hfs
        simp [hfs]
      · cases hn : (osChdir sys w.cwd w1).1 <;> simp [deferChdir]
    · simp [hpe] at hp


theorem IsAbs_append (a b : String) (h : Filepath.IsAbs a = true) :
    Filepath.IsAbs (a ++ b) = true := by
  unfold Filepath.IsAbs at h ⊢
  simp only [String.toList, String.data_append] at h ⊢
  cases hd : a.data with
  | nil => simp [hd] at h
  | cons c tl => simpa [hd] using h

theorem osChdir_IsAbs (sys : Sys F) (dir : String) (w : World F)
    (h : Filepath.IsAbs w.cwd = true) : Filepath.IsAbs (osChdir sys dir w).2.cwd = true := by
  unfold osChdir
  cases hce : sys.chdirErr w dir with
  | some e => simpa using h
  | none =>
    simp only
    by_cases hd : Filepath.IsAbs dir = true
    · simp [hd]
    · simp only [hd, if_false]
      rw [String.append_assoc]
      exact IsAbs_append _ _ h

theorem doArticle_IsAbs (sys : Sys F) (out inp : String) (tmpl : Template) (w : World F)
    (h : Filepath.IsAbs w.cwd = true) :
    Filepath.IsAbs (doArticle sys out inp tmpl w).2.1.cwd = true := by
  cases he : entered sys inp w with
  | none => rw [(doArticle_not_entered sys out inp tmpl w he).2]; exact h
  | some w1 =>
    rw [doArticle_entered sys out inp tmpl w w1 he]
    apply osChdir_IsAbs
    rw [doArticleBody_cwd]
    have := osChdir_IsAbs sys inp w h
    rw [(entered_some sys inp w w1 he).2] at this
    exact this

theorem articleRuns_IsAbs (sys : Sys F) (outdir : String) (tmpl : Template)
    (arts : List String) :
    ∀ w : World F, Filepath.IsAbs w.cwd = true →
      Filepath.IsAbs (articleRuns sys outdir tmpl arts w).2.cwd = true := by
  induction arts with
  | nil => intro w h; exact h
  | cons art rest ih =>
    intro w h
    simp only [articleRuns]
    exact ih _ (doArticle_IsAbs sys outdir art tmpl w h)

theorem worldAfterSections_IsAbs (sys : Sys F) (outdir : String) (tmpl : Template)
    (secs : List ManifestSection) :
    ∀ w : World F, Filepath.IsAbs w.cwd = true →
      Filepath.IsAbs (worldAfterSections sys outdir tmpl secs w).cwd = true := by
  induction secs with
  | nil => intro w h; exact h
  | cons sec rest ih =>
    intro w h
    simp only [worldAfterSections]
    exact ih _ (articleRuns_IsAbs sys outdir tmpl sec.Articles w h)

/-- The runs of a manifest with and without an article whose `doArticle` call leaves the
world as it found it: the same results, but for the result of that call. -/
theorem sectionRuns_remove (sys : Sys F) (outdir : String) (tmpl : Template) (w : World F)
    (pre post : List ManifestSection) (name : String) (as bs : List String) (Ak : String)
    (hw : (doArticle sys outdir Ak tmpl
        (articleRuns sys outdir tmpl as (worldAfterSections sys outdir tmpl pre w)).2).2.1 =
      (articleRuns sys outdir tmpl as (worldAfterSections sys outdir tmpl pre w)).2) :
    ∃ (X Y : List (List ArticleResult)) (A B : List ArticleResult),
      X.length = pre.length ∧
      sectionRuns sys outdir tmpl (pre ++ ⟨name, as ++ Ak :: bs⟩ :: post) w =
        X ++ (A ++ (doArticle sys outdir Ak tmpl
          (articleRuns sys outdir tmpl as (worldAfterSections sys outdir tmpl pre w)).2).1 :: B)
          :: Y ∧
      sectionRuns sys outdir tmpl (pre ++ ⟨name, as ++ bs⟩ :: post) w = X ++ (A ++ B) :: Y := by
  refine ⟨sectionRuns sys outdir tmpl pre w,
    sectionRuns sys outdir tmpl post (articleRuns sys outdir tmpl bs
      (articleRuns sys outdir tmpl as (worldAfterSections sys outdir tmpl pre w)).2).2,
    (articleRuns sys outdir tmpl as (worldAfterSections sys outdir tmpl pre w)).1,
    (articleRuns sys outdir tmpl bs
      (articleRuns sys outdir tmpl as (worldAfterSections sys outdir tmpl pre w)).2).1,
    sectionRuns_length sys outdir tmpl pre w, ?_, ?_⟩
  · rw [sectionRuns_append]
    simp only [sectionRuns, articleRuns_append, articleRuns, hw]
  · rw [sectionRuns_append]
    simp only [sectionRuns, articleRuns_append]

/-- C4 (amended): an article that fails to parse, and after which the working directory
is restored, does not abort the run, has no record and no feed item, and the section
records and feed items of the run are those of the run on the manifest without it. -/
theorem C4_isolation (sys : Sys F) (mf : manifest) (outdir : String) (tmpl : Template)
    (w : World F) (pre post : List ManifestSection) (name : String) (as bs : List String)
    (Ak : String)
    (hsecs : mf.Sections = pre ++ ⟨name, as ++ Ak :: bs⟩ :: post)
    (habs : Filepath.IsAbs w.cwd = true)
    (hp : parseFails sys Ak
      (articleRuns sys outdir tmpl as (worldAfterSections sys outdir tmpl pre w)).2 = true)
    (hr : restoredOk sys outdir Ak tmpl
      (articleRuns sys outdir tmpl as (worldAfterSections sys outdir tmpl pre w)).2 = true) :
    (build sys mf outdir tmpl w).exit = 0 ∧
    (build sys mf outdir tmpl w).meta =
      (build sys { mf with Sections := pre ++ ⟨name, as ++ bs⟩ :: post } outdir tmpl w).meta ∧
    (build sys mf outdir tmpl w).Items =
      (build sys { mf with Sections := pre ++ ⟨name, as ++ bs⟩ :: post } outdir tmpl w).Items ∧
    recordOf (doArticle sys outdir Ak tmpl
      (articleRuns sys outdir tmpl as (worldAfterSections sys outdir tmpl pre w)).2).1 = none ∧
    itemOf sys mf (doArticle sys outdir Ak tmpl
      (articleRuns sys outdir tmpl as (worldAfterSections sys outdir tmpl pre w)).2).1 = none := by
  have hwk := articleRuns_IsAbs sys outdir tmpl as _
    (worldAfterSections_IsAbs sys outdir tmpl pre w habs)
  obtain ⟨hw, herr⟩ := doArticle_parseFails sys outdir Ak tmpl _ hwk hp hr
  obtain ⟨X, Y, A, B, hX, h1, h2⟩ :=
    sectionRuns_remove sys outdir tmpl w pre post name as bs Ak hw
  have hrec : recordOf (doArticle sys outdir Ak tmpl
      (articleRuns sys outdir tmpl as (worldAfterSections sys outdir tmpl pre w)).2).1 = none := by
    cases he : (doArticle sys outdir Ak tmpl
      (articleRuns sys outdir tmpl as (worldAfterSections sys outdir tmpl pre w)).2).1.err with
    | none => exact absurd he herr
    | some e => simp [recordOf, he]
  have hitem : ∀ m : manifest, itemOf sys m (doArticle sys outdir Ak tmpl
      (articleRuns sys outdir tmpl as (worldAfterSections sys outdir tmpl pre w)).2).1 = none := by
    intro m
    cases he : (doArticle sys outdir Ak tmpl
      (articleRuns sys outdir tmpl as (worldAfterSections sys outdir tmpl pre w)).2).1.err with
    | none => exact absurd he herr
    | some e => simp [itemOf, he]
  have hitemOf : itemOf sys { mf with Sections := pre ++ ⟨name, as ++ bs⟩ :: post } =
      itemOf sys mf := rfl
  refine ⟨rfl, ?_, ?_, hrec, hitem mf⟩
  · rw [build_meta, build_meta,
      (sectionLoop_spec sys mf outdir tmpl mf.Sections [] [] w).1,
      (sectionLoop_spec sys _ outdir tmpl _ [] [] w).1, hsecs]
    simp only [List.nil_append]
    rw [h1, h2, List.zipWith_append _ _ _ _ _ hX.symm, List.zipWith_append _ _ _ _ _ hX.symm]
    simp [List.filterMap_append, hrec]
  · rw [build_Items, build_Items,
      (sectionLoop_spec sys mf outdir tmpl mf.Sections [] [] w).2,
      (sectionLoop_spec sys _ outdir tmpl _ [] [] w).2, hsecs]
    simp only [List.nil_append, hitemOf]
    rw [h1, h2]
    simp [List.filterMap_append, hitem mf]


/-- C4 (as stated, refuted): in the sample site the return from directory `bad` fails;
article `bad` fails to parse, and `foo`, processed after it, gets a record in the run
without `bad` but none in the run with it. -/
theorem C4_counterexample :
    parseFails (sampleSys (sampleManifest []) { stuckIn := some "/site/bad" }) "bad"
      sampleWorld = true ∧
    (build (sampleSys (sampleManifest []) { stuckIn := some "/site/bad" })
      (sampleManifest [⟨"One", ["bad", "foo"]⟩]) "/site/out" ⟨[]⟩ sampleWorld).meta =
      [⟨"One", []⟩] ∧
    (build (sampleSys (sampleManifest []) { stuckIn := some "/site/bad" })
      (sampleManifest [⟨"One", ["foo"]⟩]) "/site/out" ⟨[]⟩ sampleWorld).meta =
      [⟨"One", [⟨"articles/foo.html", "Foo", "About foo", ⟨100⟩⟩]⟩] ∧
    (build (sampleSys (sampleManifest []) { stuckIn := some "/site/bad" })
      (sampleManifest [⟨"One", ["bad", "foo"]⟩]) "/site/out" ⟨[]⟩ sampleWorld).meta ≠
    (build (sampleSys (sampleManifest []) { stuckIn := some "/site/bad" })
      (sampleManifest [⟨"One", ["foo"]⟩]) "/site/out" ⟨[]⟩ sampleWorld).meta ∧
    (build (sampleSys (sampleManifest []) { stuckIn := some "/site/bad" })
      (sampleManifest [⟨"One", ["bad", "foo"]⟩]) "/site/out" ⟨[]⟩ sampleWorld).Items ≠
    (build (sampleSys (sampleManifest []) { stuckIn := some "/site/bad" })
      (sampleManifest [⟨"One", ["foo"]⟩]) "/site/out" ⟨[]⟩ sampleWorld).Items := by
  decide

/-- Sample evaluation for C4: section `One` with `foo`, `bad`, `bar`: `bad` fails to parse,
the directory is restored, and records and items are those of `foo` and `bar`. -/
theorem C4_witness :
    parseFails (sampleSys (sampleManifest []) {}) "bad" sampleWorld = true ∧
    (build (sampleSys (sampleManifest []) {})
      (sampleManifest [⟨"One", ["foo", "bad", "bar"]⟩]) "/site/out" ⟨[]⟩ sampleWorld).meta =
    (build (sampleSys (sampleManifest []) {})
      { sampleManifest [⟨"One", ["foo", "bad", "bar"]⟩] with
        Sections := [] ++ ⟨"One", ["foo"] ++ ["bar"]⟩ :: [] } "/site/out" ⟨[]⟩ sampleWorld).meta ∧
    (build (sampleSys (sampleManifest []) {})
      (sampleManifest [⟨"One", ["foo", "bad", "bar"]⟩]) "/site/out" ⟨[]⟩ sampleWorld).meta =
      [⟨"One", [⟨"articles/foo.html", "Foo", "About foo", ⟨100⟩⟩,
                ⟨"articles/bar.html", "Bar", "About bar", ⟨200⟩⟩]⟩] :=
  ⟨by decide,
   (C4_isolation (sampleSys (sampleManifest []) {})
      (sampleManifest [⟨"One", ["foo", "bad", "bar"]⟩]) "/site/out" ⟨[]⟩ sampleWorld
      [] [] "One" ["foo"] ["bar"] "bad" rfl (by decide) (by decide) (by decide)).2.1,
   by decide⟩

end SSG
